import Mathlib

/-!
Verification of the `conda-dist` toolchain core against its specification.

This development shallowly embeds the parts of the source that the
specification's claims are about:

* the self-extracting installer writer
  (`conda-dist/src/installer.rs`: `emit_installers`,
  `write_self_extracting_script`, `installer_prologue`);
* the launcher's embedded-image trailer parse
  (`conda-dist-install/src/bundle.rs`: `read_embedded_layout`);
* the lockfile validator
  (`conda-dist/src/app/environment.rs`: `validate_lockfile`,
  `validate_platform_lock`);
* the environment-preparation pipeline's lock-mode decision and solve
  aggregation (`conda-dist/src/app/environment.rs`: `prepare_environment`);
* the package cache / staging decision
  (`conda-dist/src/downloader.rs`: `verify_cached_package`, `stage_package`,
  `download_and_stage_packages`);
* virtual-package detection and overrides
  (`conda-dist/src/conda/virtual_packages.rs`);
* bundle metadata derivation
  (`conda-dist/src/installer.rs`: `PreparedBundleMetadata::from_config`).

Bytes are modelled as `List Nat` (each element an octet value).  Library
interfaces consumed by the source (rattler's `Platform`, `MatchSpec`,
`PackageName`, `Version`, serde's JSON parse, SHA-256) are modelled at their
interface: either as small executable definitions mirroring the documented
behaviour, or as explicit function parameters of the embedded operations.
Filesystem, network and progress side effects are represented by explicit
state values and event traces.
-/

namespace CondaDist


/-- A single-quote character, used when assembling the error messages the
source produces with quoted names. -/
def qc : Char := Char.ofNat 39

/-- A single-quote string. -/
def q : String := String.singleton qc

/-- UTF-8 bytes of an ASCII string (the source validates manifest names to
ASCII, and all embedded literals are ASCII, so codepoints equal octets). -/
def strBytes (s : String) : List Nat := s.data.map Char.toNat

/-- `u64::from_le_bytes` on an 8-byte little-endian slice
(`conda-dist-install/src/bundle.rs`, reads of the two length fields). -/
def u64le (bs : List Nat) : Nat := bs.foldr (fun b acc => b + 256 * acc) 0

/-- `MAGIC_BYTES`: the ASCII bytes of `CONDADIST!`
(`conda-dist-install/src/bundle.rs` line 67). -/
def magicBytes : List Nat := [67, 79, 78, 68, 65, 68, 73, 83, 84, 33]

/-- `LENGTH_FIELD_SIZE` (`conda-dist-install/src/bundle.rs` line 68). -/
def lengthFieldSize : Nat := 8

/-- `read_embedded_layout` (`conda-dist-install/src/bundle.rs` lines
123-200).  The installer file is the byte list `f`; seek/read pairs become
`drop`/`take`.  The final `serde_json::from_slice` of the metadata bytes is
the library parameter `parseMeta`; `usize::try_from` of the metadata length
cannot fail on the 64-bit targets the launcher is built for and is omitted.
Returns the parsed metadata together with `payload_len`, as the source's
`EmbeddedLayout` does. -/
def readEmbeddedLayout {α : Type} (parseMeta : List Nat → Option α)
    (f : List Nat) : Except String (α × Nat) :=
  let fileLen := f.length
  let magicLen := magicBytes.length
  if fileLen < magicLen + lengthFieldSize * 2 then
    .error "installer payload is missing or corrupt"
  else
    let magicStart := fileLen - magicLen
    let marker := (f.drop magicStart).take magicLen
    if marker ≠ magicBytes then
      .error "installer payload marker mismatch; the installer may be corrupted"
    else if magicStart < lengthFieldSize then
      .error "installer payload footer is missing"
    else
      let payloadLenPos := magicStart - lengthFieldSize
      let payloadLen := u64le ((f.drop payloadLenPos).take lengthFieldSize)
      if payloadLen = 0 then
        .error "installer payload is empty"
      else if payloadLenPos < payloadLen then
        .error "installer payload length exceeds executable size"
      else
        let payloadStart := payloadLenPos - payloadLen
        if payloadStart < lengthFieldSize then
          .error "installer metadata footer is missing"
        else
          let metadataLenPos := payloadStart - lengthFieldSize
          let metadataLen := u64le ((f.drop metadataLenPos).take lengthFieldSize)
          if metadataLen = 0 then
            .error "installer metadata is empty"
          else if metadataLenPos < metadataLen then
            .error "installer metadata length exceeds executable size"
          else
            let metadataStart := metadataLenPos - metadataLen
            let metadataBytes := (f.drop metadataStart).take metadataLen
            match parseMeta metadataBytes with
            | none => .error "failed to parse installer metadata"
            | some m => .ok (m, payloadLen)

/-- The concrete installer image used to witness a successful trailer parse:
one metadata byte `97`, its length field `1`, one payload byte `5`, its
length field `1`, then the magic. -/
def sampleImage : List Nat :=
  [97, 1, 0, 0, 0, 0, 0, 0, 0, 5, 1, 0, 0, 0, 0, 0, 0, 0,
   67, 79, 78, 68, 65, 68, 73, 83, 84, 33]

/-- The subset of rattler's closed `Platform` enumeration exercised by this
repository's manifests (library interface model; `noarch` plus the
non-noarch CPU/OS pairs the build embeds launchers for). -/
inductive Platform
  | noArch
  | linux64
  | linuxAarch64
  | osx64
  | osxArm64
  | win64
deriving DecidableEq, Repr

/-- `Platform::as_str` (library interface model). -/
def Platform.asStr : Platform → String
  | .noArch => "noarch"
  | .linux64 => "linux-64"
  | .linuxAarch64 => "linux-aarch64"
  | .osx64 => "osx-64"
  | .osxArm64 => "osx-arm64"
  | .win64 => "win-64"

/-- `Platform::from_str` (library interface model, inverse of `as_str`). -/
def Platform.fromStr (s : String) : Option Platform :=
  if s = "noarch" then some .noArch
  else if s = "linux-64" then some .linux64
  else if s = "linux-aarch64" then some .linuxAarch64
  else if s = "osx-64" then some .osx64
  else if s = "osx-arm64" then some .osxArm64
  else if s = "win-64" then some .win64
  else none

/-- One sextet of the `STANDARD` base64 alphabet, as an octet. -/
def b64Char (n : Nat) : Nat :=
  if n < 26 then 65 + n
  else if n < 52 then 97 + (n - 26)
  else if n < 62 then 48 + (n - 52)
  else if n = 62 then 43
  else 47

/-- `base64::engine::general_purpose::STANDARD.encode` (library interface
model): sextet packing with `=` padding, returned as octets. -/
def base64Encode : List Nat → List Nat
  | [] => []
  | [b0] => [b64Char (b0 / 4), b64Char (b0 % 4 * 16), 61, 61]
  | [b0, b1] =>
      [b64Char (b0 / 4), b64Char (b0 % 4 * 16 + b1 / 16), b64Char (b1 % 16 * 4), 61]
  | b0 :: b1 :: b2 :: rest =>
      b64Char (b0 / 4) :: b64Char (b0 % 4 * 16 + b1 / 16) ::
        b64Char (b1 % 16 * 4 + b2 / 64) :: b64Char (b2 % 64) :: base64Encode rest

/-- Fuel-indexed splitting into 76-byte chunks; the fuel is always the list
length, which bounds the number of chunks. -/
def chunksGo : Nat → List Nat → List (List Nat)
  | _, [] => []
  | 0, _ :: _ => []
  | fuel + 1, l => l.take 76 :: chunksGo fuel (l.drop 76)

/-- `encoded.as_bytes().chunks(76)`
(`conda-dist/src/installer.rs` line 514). -/
def chunksOf76 (l : List Nat) : List (List Nat) := chunksGo l.length l

/-- The bytes of `installer_prologue` up to the point where the environment
name is substituted (`conda-dist/src/installer.rs` lines 451-492, with the
`{{`/`}}` escapes of the Rust format string resolved to single braces). -/
def prologuePart1 : List Nat :=
  [35, 33, 47, 98, 105, 110, 47, 115, 104, 10, 115, 101, 116, 32, 45, 101, 117, 10, 10, 101,
   110, 118, 95, 110, 97, 109, 101, 61, 36, 40, 99, 97, 116, 32, 60, 60, 39, 67, 79, 78,
   68, 65, 68, 73, 83, 84, 95, 69, 78, 86, 95, 78, 65, 77, 69, 39, 10]

/-- The bytes of `installer_prologue` after the substituted environment
name, ending in the `__ARCHIVE_BELOW__` marker line. -/
def prologuePart2 : List Nat :=
  [10, 67, 79, 78, 68, 65, 68, 73, 83, 84, 95, 69, 78, 86, 95, 78, 65, 77, 69, 10,
   41, 10, 10, 116, 101, 109, 112, 95, 100, 105, 114, 61, 34, 36, 40, 109, 107, 116, 101, 109,
   112, 32, 45, 100, 41, 34, 10, 99, 108, 101, 97, 110, 117, 112, 40, 41, 32, 123, 10, 32,
   32, 32, 32, 114, 109, 32, 45, 114, 102, 32, 34, 36, 116, 101, 109, 112, 95, 100, 105, 114,
   34, 10, 125, 10, 116, 114, 97, 112, 32, 99, 108, 101, 97, 110, 117, 112, 32, 69, 88, 73,
   84, 32, 73, 78, 84, 32, 84, 69, 82, 77, 10, 10, 112, 97, 121, 108, 111, 97, 100, 95,
   108, 105, 110, 101, 61, 36, 40, 97, 119, 107, 32, 39, 47, 94, 95, 95, 65, 82, 67, 72,
   73, 86, 69, 95, 66, 69, 76, 79, 87, 95, 95, 47, 32, 123, 32, 112, 114, 105, 110, 116,
   32, 78, 82, 32, 43, 32, 49, 59, 32, 101, 120, 105, 116, 32, 125, 39, 32, 34, 36, 48,
   34, 41, 10, 116, 97, 105, 108, 32, 45, 110, 32, 43, 34, 36, 112, 97, 121, 108, 111, 97,
   100, 95, 108, 105, 110, 101, 34, 32, 34, 36, 48, 34, 32, 124, 32, 98, 97, 115, 101, 54,
   52, 32, 45, 100, 32, 124, 32, 116, 97, 114, 32, 45, 120, 122, 32, 45, 67, 32, 34, 36,
   116, 101, 109, 112, 95, 100, 105, 114, 34, 10, 10, 98, 117, 110, 100, 108, 101, 95, 100, 105,
   114, 61, 34, 36, 116, 101, 109, 112, 95, 100, 105, 114, 47, 36, 101, 110, 118, 95, 110, 97,
   109, 101, 34, 10, 105, 110, 115, 116, 97, 108, 108, 101, 114, 95, 112, 97, 116, 104, 61, 34,
   36, 98, 117, 110, 100, 108, 101, 95, 100, 105, 114, 47, 105, 110, 115, 116, 97, 108, 108, 101,
   114, 34, 10, 10, 105, 102, 32, 91, 32, 33, 32, 45, 120, 32, 34, 36, 105, 110, 115, 116,
   97, 108, 108, 101, 114, 95, 112, 97, 116, 104, 34, 32, 93, 59, 32, 116, 104, 101, 110, 10,
   32, 32, 32, 32, 99, 104, 109, 111, 100, 32, 43, 120, 32, 34, 36, 105, 110, 115, 116,
   97, 108, 108, 101, 114, 95, 112, 97, 116, 104, 34, 10, 102, 105, 10, 10, 101, 120, 112, 111,
   114, 116, 32, 67, 79, 78, 68, 65, 95, 68, 73, 83, 84, 95, 66, 85, 78, 68, 76, 69, 95,
   68, 73, 82, 61, 34, 36, 98, 117, 110, 100, 108, 101, 95, 100, 105, 114, 34, 10, 101, 120,
   112, 111, 114, 116, 32, 67, 79, 78, 68, 65, 95, 68, 73, 83, 84, 95, 80, 82, 79, 74,
   69, 67, 84, 95, 78, 65, 77, 69, 61, 34, 36, 101, 110, 118, 95, 110, 97, 109, 101, 34,
   10, 10, 105, 102, 32, 34, 36, 105, 110, 115, 116, 97, 108, 108, 101, 114, 95, 112, 97, 116,
   104, 34, 32, 34, 36, 64, 34, 59, 32, 116, 104, 101, 110, 10, 32, 32, 32, 32, 115, 116,
   97, 116, 117, 115, 61, 48, 10, 101, 108, 115, 101, 10, 32, 32, 32, 32, 115, 116, 97, 116,
   117, 115, 61, 36, 63, 10, 102, 105, 10, 10, 101, 120, 105, 116, 32, 34, 36, 115, 116, 97,
   116, 117, 115, 34, 10, 10, 95, 95, 65, 82, 67, 72, 73, 86, 69, 95, 66, 69, 76, 79,
   87, 95, 95, 10]

/-- `installer_prologue(environment_name)` as bytes
(`conda-dist/src/installer.rs` lines 451-492). -/
def installerPrologueBytes (environmentName : String) : List Nat :=
  prologuePart1 ++ strBytes environmentName ++ prologuePart2

/-- `write_self_extracting_script` (`conda-dist/src/installer.rs` lines
494-540): the bytes of the created file are the prologue followed by the
base64-encoded archive written 76 bytes per line, a newline after each
chunk.  The chmod(0755) on unix hosts does not change the bytes and is not
modelled. -/
def writeSelfExtractingScript (environmentName : String)
    (archiveBytes : List Nat) : List Nat :=
  (chunksOf76 (base64Encode archiveBytes)).foldl
    (fun acc chunk => acc ++ chunk ++ [10])
    (installerPrologueBytes environmentName)

/-- `emit_installers` (`conda-dist/src/installer.rs` lines 234-300): for
each selected platform, look up the embedded launcher (error when absent),
build the platform archive, and write
`<output_dir>/<env>-<platform>.sh`.  The compile-time launcher table
(`INSTALLERS`, generated by the build script) and the tar+gzip archive
builder `create_tar_gz_for_platform` (which consumes filesystem state) are
the parameters `installersTable` and `archiveFor`; the result is the list
of written files as (file name, bytes) pairs in emission order. -/
def emitInstallers (installersTable : String → Option (List Nat))
    (archiveFor : Platform → List Nat → List Nat)
    (environmentName : String) (selectedPlatforms : List Platform) :
    Except String (List (String × List Nat)) :=
  match selectedPlatforms with
  | [] => .ok []
  | p :: rest =>
    match installersTable p.asStr with
    | none => .error ("no embedded installer available for platform " ++ p.asStr)
    | some installerBytes =>
      let archiveBytes := archiveFor p installerBytes
      let installerName := environmentName ++ "-" ++ p.asStr ++ ".sh"
      match emitInstallers installersTable archiveFor environmentName rest with
      | .error e => .error e
      | .ok written => .ok ((installerName, writeSelfExtractingScript environmentName archiveBytes) :: written)

/-- 8-byte little-endian encoding of a `u64` value, used to state the
trailer layout the specification claims for the installer image. -/
def u64leBytes (n : Nat) : List Nat :=
  [n % 256, n / 256 % 256, n / 256 ^ 2 % 256, n / 256 ^ 3 % 256,
   n / 256 ^ 4 % 256, n / 256 ^ 5 % 256, n / 256 ^ 6 % 256, n / 256 ^ 7 % 256]

/-- Launcher table used in the concrete C1 scenario: every platform has a
one-byte embedded launcher. -/
def c1Table : String → Option (List Nat) := fun _ => some [0]

/-- Archive builder used in the concrete C1 scenario: a one-byte archive. -/
def c1ArchiveFor : Platform → List Nat → List Nat := fun _ _ => [0]

/-- The fields of rattler's `RepoDataRecord`/`PackageRecord` that the
embedded operations read: normalized package name, subdir, file name, URL,
optional SHA-256 digest (as an abstract numeric value) and dependency
strings. -/
structure RepoDataRecord where
  name : String
  subdir : String
  fileName : String
  url : String
  sha256 : Option Nat
  depends : List String
deriving DecidableEq, Repr

/-- The interface of rattler's `MatchSpec` the validator uses: the optional
normalized package name, the decidable match against a record
(`Matches::matches`), and the display form used in error messages. -/
structure MatchSpec where
  name : Option String
  specMatches : RepoDataRecord → Bool
  text : String

/-- `lock_key` (`conda-dist/src/app/environment.rs` lines 466-472). -/
def lockKey (record : RepoDataRecord) : String :=
  record.subdir ++ "::" ++ record.name

/-- Lookup in the insertion-ordered association list standing in for the
validator's name-keyed `HashMap`. -/
def lookupName : List (String × RepoDataRecord) → String → Option RepoDataRecord
  | [], _ => none
  | (k, v) :: rest, name => if k = name then some v else lookupName rest name

/-- The `by_name` construction of `validate_platform_lock`
(`environment.rs` lines 354-364): inserts each record keyed by its
normalized name, failing on a duplicate name. -/
def buildByName (platform : Platform) :
    List RepoDataRecord → List (String × RepoDataRecord) →
    Except String (List (String × RepoDataRecord))
  | [], acc => .ok acc
  | record :: rest, acc =>
    let name := record.name
    if (lookupName acc name).isSome then
      .error ("lockfile contains multiple entries for package " ++ q ++ name ++ q
        ++ " on platform " ++ platform.asStr)
    else
      buildByName platform rest (acc ++ [(name, record)])

/-- The seeding loop of `validate_platform_lock` (`environment.rs` lines
369-399): each manifest spec must name a package, the package must be
present, and the present record must match the spec; the matched names
seed the BFS queue in spec order. -/
def seedQueue (platform : Platform) (byName : List (String × RepoDataRecord)) :
    List MatchSpec → Except String (List String)
  | [] => .ok []
  | spec :: rest =>
    match spec.name with
    | none =>
      .error ("manifest dependency " ++ q ++ spec.text ++ q
        ++ " does not specify a package name")
    | some specName =>
      match lookupName byName specName with
      | none =>
        .error ("lockfile missing package " ++ q ++ specName ++ q
          ++ " required by manifest for platform " ++ platform.asStr)
      | some record =>
        if spec.specMatches record then
          match seedQueue platform byName rest with
          | .error e => .error e
          | .ok names => .ok (specName :: names)
        else
          .error ("lockfile entry for " ++ q ++ specName ++ q
            ++ " does not satisfy manifest requirement " ++ q ++ spec.text ++ q
            ++ " on platform " ++ platform.asStr)

/-- The dependency loop of the BFS body (`environment.rs` lines 415-460):
skip `__`-prefixed (virtual) dependency strings, lenient-parse the rest
(the library parse is the `parse` parameter; its error text is abstracted
into the context message), require the named dependency to be present and
matching, and collect the dependency names pushed onto the queue. -/
def checkDeps (parse : String → Option MatchSpec) (platform : Platform)
    (byName : List (String × RepoDataRecord)) (name : String) :
    List String → Except String (List String)
  | [] => .ok []
  | dependency :: rest =>
    if dependency.startsWith "__" then checkDeps parse platform byName name rest
    else
      match parse dependency with
      | none =>
        .error ("failed to parse dependency " ++ q ++ dependency ++ q
          ++ " for package " ++ q ++ name ++ q ++ " in lockfile")
      | some depSpec =>
        match depSpec.name with
        | none =>
          .error ("dependency " ++ q ++ dependency ++ q ++ " for package "
            ++ q ++ name ++ q ++ " is missing a package name")
        | some depName =>
          match lookupName byName depName with
          | none =>
            .error ("lockfile missing dependency " ++ q ++ depName ++ q
              ++ " required by " ++ q ++ name ++ q ++ " on platform "
              ++ platform.asStr)
          | some depRecord =>
            if depSpec.specMatches depRecord then
              match checkDeps parse platform byName name rest with
              | .error e => .error e
              | .ok names => .ok (depName :: names)
            else
              .error ("lockfile entry " ++ q ++ depName ++ q
                ++ " does not satisfy dependency " ++ q ++ dependency ++ q
                ++ " of " ++ q ++ name ++ q ++ " on platform " ++ platform.asStr)

/-- The BFS loop of `validate_platform_lock` (`environment.rs` lines
401-461), fuel-indexed: one unit of fuel per queue pop.  The callers pass
fuel that bounds the total number of pops (initial queue length plus the
total dependency count over the index), so the fuel-exhaustion branch is
never reached on the inputs the validator constructs. -/
def bfsValidate (parse : String → Option MatchSpec) (platform : Platform)
    (byName : List (String × RepoDataRecord)) :
    Nat → List String → List String → Except String (List String)
  | _, [], visited => .ok visited
  | 0, _ :: _, _ => .error "validator ran out of fuel"
  | fuel + 1, name :: queue, visited =>
    match lookupName byName name with
    | none =>
      .error ("lockfile missing package " ++ q ++ name ++ q
        ++ " while validating platform " ++ platform.asStr)
    | some record =>
      let key := lockKey record
      if visited.contains key then
        bfsValidate parse platform byName fuel queue visited
      else
        match checkDeps parse platform byName name record.depends with
        | .error e => .error e
        | .ok depNames =>
          bfsValidate parse platform byName fuel (queue ++ depNames)
            (visited ++ [key])

/-- Total dependency count of the name index (a bound on BFS pushes). -/
def sumDeps (byName : List (String × RepoDataRecord)) : Nat :=
  (byName.map (fun e => e.2.depends.length)).sum

/-- `validate_platform_lock` (`environment.rs` lines 342-464): empty
record-set check, duplicate-free name index, spec seeding, then the BFS
over the dependency closure; returns the visited `(subdir, name)` keys. -/
def validatePlatformLock (parse : String → Option MatchSpec)
    (platform : Platform) (records : List RepoDataRecord)
    (specs : List MatchSpec) : Except String (List String) :=
  if records.isEmpty then
    .error ("lockfile does not contain any packages for platform " ++ platform.asStr)
  else
    match buildByName platform records [] with
    | .error e => .error e
    | .ok byName =>
      match seedQueue platform byName specs with
      | .error e => .error e
      | .ok queue =>
        bfsValidate parse platform byName (queue.length + sumDeps byName + 1)
          queue []

/-- `Platform::from_str(&record.package_record.subdir)` as used by the
grouping loop of `validate_lockfile`. -/
def platformOf (record : RepoDataRecord) : Option Platform :=
  Platform.fromStr record.subdir

/-- The first record whose subdir does not parse as a platform, if any
(the grouping loop of `validate_lockfile`, `environment.rs` lines
299-312, fails on the first such record). -/
def firstUnrecognisedSubdir : List RepoDataRecord → Option RepoDataRecord
  | [] => none
  | r :: rest =>
    if (platformOf r).isSome then firstUnrecognisedSubdir rest else some r

/-- `by_platform.get(platform)` of the grouping loop: the records whose
subdir parses to `platform`, in lockfile order. -/
def recordsForPlatform (records : List RepoDataRecord) (platform : Platform) :
    List RepoDataRecord :=
  records.filter (fun r => platformOf r == some platform)

/-- The per-target loop of `validate_lockfile` (`environment.rs` lines
321-327): validate each target platform against its records plus the
noarch records and accumulate the visited keys. -/
def coveredKeysForTargets (parse : String → Option MatchSpec)
    (records : List RepoDataRecord) (specs : List MatchSpec) :
    List Platform → Except String (List String)
  | [] => .ok []
  | p :: rest =>
    match validatePlatformLock parse p
        (recordsForPlatform records p ++ recordsForPlatform records .noArch)
        specs with
    | .error e => .error e
    | .ok visited =>
      match coveredKeysForTargets parse records specs rest with
      | .error e => .error e
      | .ok others => .ok (visited ++ others)

/-- Extensional equality of the two key `HashSet`s compared at the end of
`validate_lockfile` (`environment.rs` line 328). -/
def setEqStr (a b : List String) : Bool :=
  a.all (fun k => b.contains k) && b.all (fun k => a.contains k)

/-- `validate_lockfile` (`environment.rs` lines 294-340).  The extras in
the failure message are listed in lockfile order (the source iterates a
`HashSet` difference, whose order is unspecified). -/
def validateLockfile (parse : String → Option MatchSpec)
    (records : List RepoDataRecord) (specs : List MatchSpec)
    (targetPlatforms : List Platform) : Except String Unit :=
  match firstUnrecognisedSubdir records with
  | some r =>
    .error ("lockfile entry " ++ q ++ r.name ++ q
      ++ " has an unrecognised subdir " ++ q ++ r.subdir ++ q)
  | none =>
    let allKeys := records.map lockKey
    match coveredKeysForTargets parse records specs targetPlatforms with
    | .error e => .error e
    | .ok covered =>
      if setEqStr covered allKeys then .ok ()
      else
        .error ("lockfile contains package(s) unrelated to manifest dependencies: "
          ++ String.intercalate ", "
              (allKeys.filter (fun k => !(covered.contains k))))

/-- A visited key is accounted for: some indexed record carries the key
and every non-virtual dependency string of that record parses and is
satisfied by an indexed record. -/
def goodKey (parse : String → Option MatchSpec)
    (byName : List (String × RepoDataRecord)) (key : String) : Prop :=
  ∃ n r, lookupName byName n = some r ∧ lockKey r = key ∧
    ∀ dep ∈ r.depends, dep.startsWith "__" = false →
      ∃ depSpec depName r', parse dep = some depSpec ∧
        depSpec.name = some depName ∧ lookupName byName depName = some r' ∧
        depSpec.specMatches r' = true

/-- A concrete record on linux-64 depending on `b`, for the validator
witnesses. -/
def wRecA : RepoDataRecord :=
  { name := "a", subdir := "linux-64", fileName := "a.conda", url := "u",
    sha256 := none, depends := ["b"] }

/-- A concrete noarch record with no dependencies. -/
def wRecB : RepoDataRecord :=
  { name := "b", subdir := "noarch", fileName := "b.conda", url := "u",
    sha256 := none, depends := [] }

/-- The records of the concrete valid lockfile scenario. -/
def wRecords : List RepoDataRecord := [wRecA, wRecB]

/-- A manifest spec demanding package `a`. -/
def wSpecA : MatchSpec :=
  { name := some "a", specMatches := fun r => r.name == "a", text := "a" }

/-- A name-only lenient parse standing in for the library MatchSpec parse
in the concrete scenarios. -/
def wParse : String → Option MatchSpec := fun st =>
  some { name := some st, specMatches := fun r => r.name == st, text := st }

/-- The `(subdir, file_name)` dedup key used by the solve aggregation and
the downloader (`environment.rs` lines 160-168, `downloader.rs` lines
43-48). -/
def recordKey (record : RepoDataRecord) : String × String :=
  (record.subdir, record.fileName)

/-- First-seen-order dedup keyed by `recordKey`, generalized over the keys
already seen: the closed form of the `seen`/`combined` accumulation both
call sites use. -/
def dedupByKeyAux (seen : List (String × String)) :
    List RepoDataRecord → List RepoDataRecord
  | [] => []
  | record :: rest =>
    if recordKey record ∈ seen then dedupByKeyAux seen rest
    else record :: dedupByKeyAux (seen ++ [recordKey record]) rest

/-- Dedup of a record list keyed by `(subdir, file_name)`, keeping the
first occurrence of each key in input order. -/
def dedupByKey (records : List RepoDataRecord) : List RepoDataRecord :=
  dedupByKeyAux [] records

/-- The inner `for record in records { if seen.insert(key) { push } }`
loop of the solve aggregation (`environment.rs` lines 160-168). -/
def insertRecords : List (String × String) → List RepoDataRecord →
    List RepoDataRecord → List (String × String) × List RepoDataRecord
  | seen, combined, [] => (seen, combined)
  | seen, combined, record :: rest =>
    if recordKey record ∈ seen then insertRecords seen combined rest
    else insertRecords (seen ++ [recordKey record]) (combined ++ [record]) rest

/-- The fields of the downloader's `PackageEntry`
(`downloader.rs` lines 27-33). -/
structure PackageEntry where
  subdir : String
  fileName : String
  url : String
  sha256 : Option Nat
deriving DecidableEq, Repr

/-- Construction of a `PackageEntry` from a record
(`downloader.rs` lines 48-54). -/
def toPackageEntry (record : RepoDataRecord) : PackageEntry :=
  { subdir := record.subdir, fileName := record.fileName,
    url := record.url, sha256 := record.sha256 }

/-- The dedup loop at the head of `download_and_stage_packages`
(`downloader.rs` lines 41-56), generalized over the seen-key set. -/
def downloadEntries (seen : List (String × String)) :
    List RepoDataRecord → List PackageEntry
  | [] => []
  | record :: rest =>
    if recordKey record ∈ seen then downloadEntries seen rest
    else toPackageEntry record :: downloadEntries (seen ++ [recordKey record]) rest

/-- The per-platform solve loop of `prepare_environment` (`environment.rs`
lines 126-171): solve each target platform in manifest order (the
per-platform solve, including locked pins and virtual-package detection,
is the `solve` parameter), folding each platform's records into the
combined list with first-seen `(subdir, file_name)` dedup; a failing
platform fails the whole solve with the platform named in the context
message.  Also returns the platforms for which the solver ran, in order. -/
def solveAllPlatforms (solve : Platform → Except String (List RepoDataRecord)) :
    List Platform → List (String × String) → List RepoDataRecord →
    Except String (List RepoDataRecord) × List Platform
  | [], _, combined => (.ok combined, [])
  | p :: rest, seen, combined =>
    match solve p with
    | .error e =>
      (.error ("failed to solve environment for platform " ++ p.asStr ++ ": " ++ e),
       [p])
    | .ok records =>
      let sc := insertRecords seen combined records
      let next := solveAllPlatforms solve rest sc.1 sc.2
      (next.1, p :: next.2)

/-- `LockMode` (`conda-dist/src/app/mod.rs`): the three-valued lock
decision mode. -/
inductive LockMode
  | auto
  | unlock
  | locked
deriving DecidableEq, Repr

/-- `augment_with_noarch` (`conda-dist/src/conda/platforms.rs` lines
19-25). -/
def augmentWithNoarch (platforms : List Platform) : List Platform :=
  if Platform.noArch ∈ platforms then platforms else platforms ++ [Platform.noArch]

/-- The observable side effects of `prepare_environment`, in program
order.  Events that hand records to a consumer carry those records. -/
inductive PipelineEvent
  | createStagingDir
  | parseChannels
  | buildGateway
  | loadLockfile
  | validateLockfileRecords
  | solvePlatform (platform : Platform)
  | downloadPackages (records : List RepoDataRecord)
  | writeWorkspaceLockfile (records : List RepoDataRecord)
  | writeBundleLockfile (records : List RepoDataRecord)
deriving DecidableEq, Repr

/-- The tail of `prepare_environment` after the lock-mode decision has
produced `lockError` (`environment.rs` lines 102-241): compute
`lock_reused`, fail under Locked with the validator reason, then either
reuse the loaded records or run the per-platform solves, derive bundle
metadata, download/stage, and write the two lockfiles. -/
def prepareEnvironmentTail (existingLockRecords : List RepoDataRecord)
    (solve : Platform → Except String (List RepoDataRecord))
    (deriveMetadata : List RepoDataRecord → Except String Unit)
    (download : List RepoDataRecord → Except String Unit)
    (targetPlatforms : List Platform) (lockMode : LockMode)
    (lockfileExists : Bool) (lockError : Option String)
    (ev : List PipelineEvent) :
    Except String (List RepoDataRecord × Bool) × List PipelineEvent :=
  let lockReused := lockfileExists && lockError.isNone
    && decide (¬ lockMode = LockMode.unlock)
  match lockMode, lockError with
  | .locked, some reason =>
    (.error ("lockfile is out of date: " ++ reason), ev)
  | _, _ =>
    let solved :=
      if lockReused then (Except.ok existingLockRecords, ([] : List Platform))
      else solveAllPlatforms solve targetPlatforms [] []
    let solveEvents := solved.2.map PipelineEvent.solvePlatform
    match solved.1 with
    | .error e => (.error e, ev ++ solveEvents)
    | .ok solvedRecords =>
      match deriveMetadata solvedRecords with
      | .error e => (.error e, ev ++ solveEvents)
      | .ok _ =>
        match download solvedRecords with
        | .error e =>
          (.error e, ev ++ solveEvents ++ [.downloadPackages solvedRecords])
        | .ok _ =>
          (.ok (solvedRecords, lockReused),
           ev ++ solveEvents
             ++ [.downloadPackages solvedRecords,
                 .writeWorkspaceLockfile solvedRecords,
                 .writeBundleLockfile solvedRecords])

/-- `prepare_environment` (`conda-dist/src/app/environment.rs` lines
35-241) as a pure function over its decision-relevant inputs, returning
the solved records and the `lock_reused` flag together with the event
trace.  I/O is abstracted: channel parsing outcome is the
`parseChannelsResult` parameter, lockfile loading is `loadLocked` (always
invoked with the targets augmented by noarch, line 77), the per-platform
solve is `solve`, bundle metadata derivation is `deriveMetadata`, and the
download/stage step is `download`; staging-directory and lockfile-write
I/O failures are not modelled.  The lock decision block is lines 84-108
verbatim: Unlock skips validation, a present lockfile is validated, a
missing lockfile under Locked fails, `lock_reused` requires a present
valid lockfile and a non-Unlock mode, and a stale lockfile under Locked
fails with the validator reason. -/
def prepareEnvironment (parse : String → Option MatchSpec)
    (parseChannelsResult : Except String Unit) (specs : List MatchSpec)
    (lockfilePath : String) (lockfileExists : Bool)
    (loadLocked : List Platform → List RepoDataRecord)
    (solve : Platform → Except String (List RepoDataRecord))
    (deriveMetadata : List RepoDataRecord → Except String Unit)
    (download : List RepoDataRecord → Except String Unit)
    (targetPlatforms : List Platform) (lockMode : LockMode) :
    Except String (List RepoDataRecord × Bool) × List PipelineEvent :=
  let ev0 : List PipelineEvent := [.createStagingDir]
  match parseChannelsResult with
  | .error e => (.error e, ev0 ++ [.parseChannels])
  | .ok _ =>
    let ev1 := ev0 ++ [.parseChannels]
    if specs.isEmpty then
      (.error "no dependencies specified in manifest", ev1)
    else
      let ev2 := ev1 ++ [.buildGateway]
      let existingLockRecords :=
        if lockfileExists then loadLocked (augmentWithNoarch targetPlatforms) else []
      let ev3 := ev2 ++ (if lockfileExists then [.loadLockfile] else [])
      if lockMode = LockMode.unlock then
        prepareEnvironmentTail existingLockRecords solve deriveMetadata download
          targetPlatforms lockMode lockfileExists none ev3
      else if lockfileExists then
        prepareEnvironmentTail existingLockRecords solve deriveMetadata download
          targetPlatforms lockMode lockfileExists
          (match validateLockfile parse existingLockRecords specs targetPlatforms with
           | .ok _ => none
           | .error e => some e)
          (ev3 ++ [.validateLockfileRecords])
      else if lockMode = LockMode.locked then
        (.error ("lockfile required by --locked but not found at " ++ lockfilePath
          ++ "; generate it with --unlock"), ev3)
      else
        prepareEnvironmentTail existingLockRecords solve deriveMetadata download
          targetPlatforms lockMode lockfileExists none ev3

/-- `verify_cached_package` (`conda-dist/src/downloader.rs` lines
200-220).  The cached file is `cached : Option (List Nat)` (its content,
or `none` when absent — `fs::metadata` and `fs::read` agree in this
single-task model) and SHA-256 is the `hash` parameter.  Returns whether
the cached file is reused together with the cache state left behind (the
file is deleted on digest mismatch). -/
def verifyCachedPackage (hash : List Nat → Nat) (cached : Option (List Nat))
    (expected : Option Nat) : Bool × Option (List Nat) :=
  match expected with
  | none => (false, cached)
  | some digest =>
    match cached with
    | none => (false, cached)
    | some bytes =>
      if hash bytes = digest then (true, cached)
      else (false, none)

/-- The cache decision of `stage_package` (`downloader.rs` lines 176-189):
`cache_ready` from `verify_cached_package`, and `downloaded = true`
exactly when the cached file was not reused (in which case
`download_to_cache` runs).  Returns (downloaded, cache state after the
verification step). -/
def stagePackageDecision (hash : List Nat → Nat) (cached : Option (List Nat))
    (expected : Option Nat) : Bool × Option (List Nat) :=
  let v := verifyCachedPackage hash cached expected
  (!v.1, v.2)

/-- An entry of the manifest's featured-package list
(`config::FeaturedPackageConfig` as consumed by
`PreparedBundleMetadata::from_config`). -/
structure FeaturedPackageConfigEntry where
  name : String
deriving DecidableEq, Repr

/-- The fields of `BundleMetadataConfig` destructured by `from_config`
(`conda-dist/src/installer.rs` lines 69-76). -/
structure BundleMetadataConfig where
  displayName : Option String
  description : Option String
  releaseNotes : Option String
  successMessage : Option String
  featuredPackages : List FeaturedPackageConfigEntry
  postInstallScript : Option String
deriving DecidableEq, Repr

/-- The serialized launcher-facing manifest built by `from_config`
(`installer.rs` lines 23-36, 127-136). -/
structure BundleMetadataManifest where
  displayName : String
  description : Option String
  releaseNotes : Option String
  successMessage : Option String
  featuredPackages : List String
  postInstall : Option String
deriving DecidableEq, Repr

/-- `PostInstallArtifact` (`installer.rs` lines 48-53). -/
structure PostInstallArtifact where
  fileName : String
  bytes : List Nat
  executable : Bool
deriving DecidableEq, Repr

/-- `PreparedBundleMetadata` (`installer.rs` lines 55-59). -/
structure PreparedBundleMetadata where
  manifest : BundleMetadataManifest
  postInstall : Option PostInstallArtifact
deriving DecidableEq, Repr

/-- A character rattler's `PackageName::from_str` accepts (library
interface model): ASCII letters, digits, `.`, `_`, `-`. -/
def isPackageNameChar (c : Char) : Bool :=
  c.isAlpha || c.isDigit || c = Char.ofNat 46 || c = Char.ofNat 95 || c = Char.ofNat 45

/-- ASCII lowercasing of a character (kernel-reducible form of
`Char.toLower` for the ASCII names the manifest allows). -/
def charToLower (c : Char) : Char :=
  if 65 ≤ c.toNat ∧ c.toNat ≤ 90 then Char.ofNat (c.toNat + 32) else c

/-- ASCII lowercasing of a string. -/
def strToLower (s : String) : String := String.mk (s.data.map charToLower)

/-- `PackageName::from_str` followed by `as_normalized` (library interface
model): validates the character set and lowercases. -/
def packageNameFromStr (s : String) : Option String :=
  if s.length ≠ 0 && s.data.all isPackageNameChar then some (strToLower s) else none

/-- The featured-package loop of `from_config` (`installer.rs` lines
85-107): parse each entry as a package name (fatal on failure), require it
among the resolved record names (fatal otherwise), and keep the first
occurrence of each normalized name in order. -/
def collectFeatured (available seen : List String) :
    List FeaturedPackageConfigEntry → Except String (List String)
  | [] => .ok []
  | entry :: rest =>
    match packageNameFromStr entry.name with
    | none =>
      .error ("featured package " ++ q ++ entry.name ++ q
        ++ " is not a valid package name")
    | some packageName =>
      if packageName ∈ available then
        if packageName ∈ seen then collectFeatured available seen rest
        else
          match collectFeatured available (seen ++ [packageName]) rest with
          | .error e => .error e
          | .ok names => .ok (packageName :: names)
      else
        .error ("featured package " ++ q ++ entry.name ++ q
          ++ " was not found in the resolved environment")

/-- First-seen dedup on strings, the closed form of the `seen` set in the
featured loop. -/
def strDedupAux (seen : List String) : List String → List String
  | [] => []
  | s :: rest =>
    if s ∈ seen then strDedupAux seen rest
    else s :: strDedupAux (seen ++ [s]) rest

/-- `POST_INSTALL_SCRIPT_NAME` (`installer.rs` line 21). -/
def postInstallScriptName : String := "post-install.sh"

/-- `PreparedBundleMetadata::from_config` (`conda-dist/src/installer.rs`
lines 61-143).  Filesystem reads of the post-install script (resolved
against the manifest directory) are the `readFile` parameter; the error
message carries the script path. -/
def fromConfig (environmentName : String)
    (config : Option BundleMetadataConfig)
    (readFile : String → Option (List Nat))
    (records : List RepoDataRecord) : Except String PreparedBundleMetadata :=
  let cfg := config.getD
    { displayName := none, description := none, releaseNotes := none,
      successMessage := none, featuredPackages := [], postInstallScript := none }
  let displayName := cfg.displayName.getD environmentName
  let availableNames := records.map RepoDataRecord.name
  match collectFeatured availableNames [] cfg.featuredPackages with
  | .error e => .error e
  | .ok featured =>
    match cfg.postInstallScript with
    | some scriptPath =>
      match readFile scriptPath with
      | none => .error ("failed to read post-install script at " ++ scriptPath)
      | some scriptBytes =>
        .ok { manifest :=
                { displayName := displayName, description := cfg.description,
                  releaseNotes := cfg.releaseNotes,
                  successMessage := cfg.successMessage,
                  featuredPackages := featured,
                  postInstall := some postInstallScriptName },
              postInstall := some
                { fileName := postInstallScriptName, bytes := scriptBytes,
                  executable := true } }
    | none =>
      .ok { manifest :=
              { displayName := displayName, description := cfg.description,
                releaseNotes := cfg.releaseNotes,
                successMessage := cfg.successMessage,
                featuredPackages := featured, postInstall := none },
            postInstall := none }

/-- The concrete configuration of the C8 counterexample: no featured
packages at all, but an unreadable post-install script. -/
def c8BadConfig : BundleMetadataConfig :=
  { displayName := none, description := none, releaseNotes := none,
    successMessage := none, featuredPackages := [],
    postInstallScript := some "missing.sh" }

/-- The concrete configuration of the C8 witness: two spellings of the
same package, normalized and deduplicated. -/
def c8GoodConfig : BundleMetadataConfig :=
  { displayName := none, description := none, releaseNotes := none,
    successMessage := none,
    featuredPackages := [{ name := "A" }, { name := "a" }],
    postInstallScript := none }

/-- `Platform::is_linux` (library interface model). -/
def Platform.isLinux : Platform → Bool
  | .linux64 => true
  | .linuxAarch64 => true
  | _ => false

/-- `Platform::is_osx` (library interface model). -/
def Platform.isOsx : Platform → Bool
  | .osx64 => true
  | .osxArm64 => true
  | _ => false

/-- `Platform::is_windows` (library interface model). -/
def Platform.isWindows : Platform → Bool
  | .win64 => true
  | _ => false

/-- `Platform::is_unix` (library interface model). -/
def Platform.isUnix (p : Platform) : Bool := p.isLinux || p.isOsx

/-- ASCII whitespace, for the `value.trim().is_empty()` tests of
`apply_overrides`. -/
def isAsciiWhitespace (c : Char) : Bool :=
  c.toNat = 32 || c.toNat = 9 || c.toNat = 10 || c.toNat = 13

/-- `value.trim().is_empty()` (`virtual_packages.rs` lines 69, 88). -/
def trimmedEmpty (s : String) : Bool := s.data.all isAsciiWhitespace

/-- Split a character list on `.` (code 46). -/
def splitDot : List Char → List (List Char)
  | [] => [[]]
  | c :: rest =>
    let r := splitDot rest
    if c = Char.ofNat 46 then [] :: r
    else
      match r with
      | [] => [[c]]
      | seg :: segs => (c :: seg) :: segs

/-- Parse a non-empty all-digit segment as a number. -/
def parseNatDigits : List Char → Option Nat
  | [] => none
  | ds =>
    if ds.all Char.isDigit then
      some (ds.foldl (fun a c => a * 10 + (c.toNat - 48)) 0)
    else none

/-- rattler `Version::from_str` (library interface model restricted to the
dotted numeric versions this repository's defaults and overrides use):
every dot-separated segment must be a non-empty digit string, so the empty
string fails. -/
def versionFromStr (s : String) : Option (List Nat) :=
  let segs := splitDot s.data
  if segs.all (fun seg => (parseNatDigits seg).isSome) then
    some (segs.map (fun seg => (parseNatDigits seg).getD 0))
  else none

/-- rattler `VirtualPackages` (library interface model): `win` carries the
optional `Windows.version`, `libc` its (family, version). -/
structure VirtualPackages where
  win : Option (Option (List Nat))
  unix : Bool
  linux : Option (List Nat)
  libc : Option (String × List Nat)
  osx : Option (List Nat)
  archspec : Option String
  cuda : Option (List Nat)
deriving DecidableEq, Repr

/-- `VirtualPackageLibcConfig` (`config.rs` lines 252-257). -/
structure VirtualPackageLibcConfig where
  family : String
  version : String
deriving DecidableEq, Repr

/-- `PlatformVirtualPackageConfig` (`config.rs` lines 238-250). -/
structure PlatformVirtualPackageConfig where
  linux : Option String
  osx : Option String
  win : Option String
  libc : Option VirtualPackageLibcConfig
  cuda : Option String
deriving DecidableEq, Repr

/-- `DEFAULT_LINUX_VERSION` (`virtual_packages.rs` line 145). -/
def defaultLinuxVersion : String := "5.4"

/-- `DEFAULT_GLIBC_VERSION` (`virtual_packages.rs` line 146). -/
def defaultGlibcVersion : String := "2.17"

/-- `DEFAULT_OSX_VERSION` (`virtual_packages.rs` line 147). -/
def defaultOsxVersion : String := "13.0"

/-- `DEFAULT_WINDOWS_VERSION` (`virtual_packages.rs` line 148). -/
def defaultWindowsVersion : String := "10"

/-- `parse_version` (`virtual_packages.rs` lines 99-108). -/
def parseVersion (value : String) (name : String) (platform : Platform) :
    Except String (List Nat) :=
  match versionFromStr value with
  | some v => .ok v
  | none =>
    .error ("failed to parse virtual package " ++ name ++ " version " ++ q
      ++ value ++ q ++ " for platform " ++ platform.asStr)

/-- `Archspec::from_platform` (library interface model). -/
def archspecFromPlatform : Platform → Option String
  | .noArch => none
  | .linux64 => some "x86_64"
  | .linuxAarch64 => some "aarch64"
  | .osx64 => some "x86_64"
  | .osxArm64 => some "arm64"
  | .win64 => some "x86_64"

/-- The `config.linux` arm of `apply_overrides`
(`virtual_packages.rs` lines 58-61). -/
def applyLinuxOverride (platform : Platform)
    (config : PlatformVirtualPackageConfig) (packages : VirtualPackages) :
    Except String VirtualPackages :=
  match config.linux with
  | none => .ok packages
  | some value =>
    match parseVersion value "__linux" platform with
    | .error e => .error e
    | .ok version => .ok { packages with linux := some version }

/-- The `config.osx` arm (`virtual_packages.rs` lines 63-66). -/
def applyOsxOverride (platform : Platform)
    (config : PlatformVirtualPackageConfig) (packages : VirtualPackages) :
    Except String VirtualPackages :=
  match config.osx with
  | none => .ok packages
  | some value =>
    match parseVersion value "__osx" platform with
    | .error e => .error e
    | .ok version => .ok { packages with osx := some version }

/-- The `config.win` arm (`virtual_packages.rs` lines 68-77): an
empty-after-trim value keeps the `__win` package but clears its version. -/
def applyWinOverride (platform : Platform)
    (config : PlatformVirtualPackageConfig) (packages : VirtualPackages) :
    Except String VirtualPackages :=
  match config.win with
  | none => .ok packages
  | some value =>
    if trimmedEmpty value then .ok { packages with win := some none }
    else
      match parseVersion value "__win" platform with
      | .error e => .error e
      | .ok version => .ok { packages with win := some (some version) }

/-- The `config.libc` arm (`virtual_packages.rs` lines 79-85). -/
def applyLibcOverride (platform : Platform)
    (config : PlatformVirtualPackageConfig) (packages : VirtualPackages) :
    Except String VirtualPackages :=
  match config.libc with
  | none => .ok packages
  | some libc =>
    match parseVersion libc.version "__glibc" platform with
    | .error e => .error e
    | .ok version => .ok { packages with libc := some (libc.family, version) }

/-- The `config.cuda` arm (`virtual_packages.rs` lines 87-94): an
empty-after-trim value removes the `__cuda` package entirely. -/
def applyCudaOverride (platform : Platform)
    (config : PlatformVirtualPackageConfig) (packages : VirtualPackages) :
    Except String VirtualPackages :=
  match config.cuda with
  | none => .ok packages
  | some value =>
    if trimmedEmpty value then .ok { packages with cuda := none }
    else
      match parseVersion value "__cuda" platform with
      | .error e => .error e
      | .ok version => .ok { packages with cuda := some version }

/-- `apply_overrides` (`virtual_packages.rs` lines 53-97): the five arms
in source order. -/
def applyOverrides (platform : Platform) (packages : VirtualPackages)
    (config : PlatformVirtualPackageConfig) : Except String VirtualPackages :=
  match applyLinuxOverride platform config packages with
  | .error e => .error e
  | .ok p1 =>
    match applyOsxOverride platform config p1 with
    | .error e => .error e
    | .ok p2 =>
      match applyWinOverride platform config p2 with
      | .error e => .error e
      | .ok p3 =>
        match applyLibcOverride platform config p3 with
        | .error e => .error e
        | .ok p4 => applyCudaOverride platform config p4

/-- `apply_cross_platform_defaults` (`virtual_packages.rs` lines
110-143): fill family defaults that are still unset. -/
def applyCrossPlatformDefaults (platform : Platform)
    (packages : VirtualPackages) : Except String VirtualPackages :=
  let linuxStep : Except String VirtualPackages :=
    if platform.isLinux && packages.linux.isNone then
      match parseVersion defaultLinuxVersion "__linux" platform with
      | .error e => .error e
      | .ok v => .ok { packages with linux := some v }
    else .ok packages
  match linuxStep with
  | .error e => .error e
  | .ok p1 =>
    let libcStep : Except String VirtualPackages :=
      if platform.isLinux && p1.libc.isNone then
        match parseVersion defaultGlibcVersion "__glibc" platform with
        | .error e => .error e
        | .ok v => .ok { p1 with libc := some ("glibc", v) }
      else .ok p1
    match libcStep with
    | .error e => .error e
    | .ok p2 =>
      let osxStep : Except String VirtualPackages :=
        if platform.isOsx && p2.osx.isNone then
          match parseVersion defaultOsxVersion "__osx" platform with
          | .error e => .error e
          | .ok v => .ok { p2 with osx := some v }
        else .ok p2
      match osxStep with
      | .error e => .error e
      | .ok p3 =>
        if platform.isWindows && p3.win.isNone then
          match parseVersion defaultWindowsVersion "__win" platform with
          | .error e => .error e
          | .ok v => .ok { p3 with win := some (some v) }
        else .ok p3

/-- `VirtualPackages::into_virtual_packages` followed by
`GenericVirtualPackage::from` (library interface model): each set field
becomes a `__`-prefixed package; a `Windows` with no version reports
version 0. -/
def intoVirtualPackages (vp : VirtualPackages) : List (String × List Nat) :=
  (match vp.win with
   | some v => [("__win", v.getD [0])]
   | none => []) ++
  (if vp.unix then [("__unix", [0])] else []) ++
  (match vp.linux with
   | some v => [("__linux", v)]
   | none => []) ++
  (match vp.libc with
   | some fv => [("__" ++ fv.1, fv.2)]
   | none => []) ++
  (match vp.osx with
   | some v => [("__osx", v)]
   | none => []) ++
  (match vp.archspec with
   | some _ => [("__archspec", [1])]
   | none => []) ++
  (match vp.cuda with
   | some v => [("__cuda", v)]
   | none => [])

/-- `detect_virtual_packages_for_platform` (`virtual_packages.rs` lines
9-51): platform-family defaults, archspec, cross-platform default fill,
then the per-platform overrides. -/
def detectVirtualPackagesForPlatform (platform : Platform)
    (overrides : Option PlatformVirtualPackageConfig) :
    Except String (List (String × List Nat)) :=
  let packages : VirtualPackages :=
    { win := none, unix := platform.isUnix, linux := none, libc := none,
      osx := none, archspec := none, cuda := none }
  let winStep : Except String VirtualPackages :=
    if platform.isWindows then
      match parseVersion defaultWindowsVersion "__win" platform with
      | .error e => .error e
      | .ok v => .ok { packages with win := some (some v) }
    else .ok packages
  match winStep with
  | .error e => .error e
  | .ok p1 =>
    let linuxStep : Except String VirtualPackages :=
      if platform.isLinux then
        match parseVersion defaultLinuxVersion "__linux" platform with
        | .error e => .error e
        | .ok vl =>
          match parseVersion defaultGlibcVersion "__glibc" platform with
          | .error e => .error e
          | .ok vg => .ok { p1 with linux := some vl, libc := some ("glibc", vg) }
      else .ok p1
    match linuxStep with
    | .error e => .error e
    | .ok p2 =>
      let osxStep : Except String VirtualPackages :=
        if platform.isOsx then
          match parseVersion defaultOsxVersion "__osx" platform with
          | .error e => .error e
          | .ok vo => .ok { p2 with osx := some vo }
        else .ok p2
      match osxStep with
      | .error e => .error e
      | .ok p3 =>
        let p4 := { p3 with archspec := archspecFromPlatform platform }
        match applyCrossPlatformDefaults platform p4 with
        | .error e => .error e
        | .ok p5 =>
          match overrides with
          | some config =>
            match applyOverrides platform p5 config with
            | .error e => .error e
            | .ok p6 => .ok (intoVirtualPackages p6)
          | none => .ok (intoVirtualPackages p5)

/-- The override configuration of the C9 counterexample: an empty `linux`
value. -/
def c9LinuxEmpty : PlatformVirtualPackageConfig :=
  { linux := some "", osx := none, win := none, libc := none, cuda := none }

/-- The override configuration of the C9 counterexample: an empty `win`
value. -/
def c9WinEmpty : PlatformVirtualPackageConfig :=
  { linux := none, osx := none, win := some "", libc := none, cuda := none }

/-- The packages and configuration of the C9 witness: a cuda override
with an empty value. -/
def c9Packages : VirtualPackages :=
  { win := none, unix := true, linux := some [5, 4],
    libc := some ("glibc", [2, 17]), osx := none, archspec := some "x86_64",
    cuda := some [12] }

/-- Override configuration clearing cuda. -/
def c9CudaEmpty : PlatformVirtualPackageConfig :=
  { linux := none, osx := none, win := none, libc := none, cuda := some "" }

/-- C2: the launcher's trailer parse succeeds only if the file is at least
`len(magic) + 16` bytes, the trailing bytes equal `CONDADIST!`, the
little-endian payload length just before the magic is non-zero and does not
exceed the bytes preceding it, and the little-endian metadata length just
before the payload is non-zero and does not exceed the bytes preceding it;
each violated check is rejected with its own error, in that order. -/
theorem trailer_parse_checks :
    (∀ (α : Type) (pm : List Nat → Option α) (f : List Nat) (r : α × Nat),
        readEmbeddedLayout pm f = .ok r →
        magicBytes.length + 16 ≤ f.length ∧
        f.drop (f.length - magicBytes.length) = magicBytes ∧
        r.2 = u64le ((f.drop (f.length - magicBytes.length - 8)).take 8) ∧
        r.2 ≠ 0 ∧
        r.2 ≤ f.length - magicBytes.length - 8 ∧
        u64le ((f.drop (f.length - magicBytes.length - 8 - r.2 - 8)).take 8) ≠ 0 ∧
        u64le ((f.drop (f.length - magicBytes.length - 8 - r.2 - 8)).take 8)
          ≤ f.length - magicBytes.length - 8 - r.2 - 8) ∧
    (∀ (α : Type) (pm : List Nat → Option α) (f : List Nat),
        f.length < magicBytes.length + 16 →
        readEmbeddedLayout pm f = .error "installer payload is missing or corrupt") ∧
    (∀ (α : Type) (pm : List Nat → Option α) (f : List Nat),
        magicBytes.length + 16 ≤ f.length →
        (f.drop (f.length - magicBytes.length)).take magicBytes.length ≠ magicBytes →
        readEmbeddedLayout pm f =
          .error "installer payload marker mismatch; the installer may be corrupted") ∧
    (∀ (α : Type) (pm : List Nat → Option α) (f : List Nat),
        magicBytes.length + 16 ≤ f.length →
        (f.drop (f.length - magicBytes.length)).take magicBytes.length = magicBytes →
        u64le ((f.drop (f.length - magicBytes.length - 8)).take 8) = 0 →
        readEmbeddedLayout pm f = .error "installer payload is empty") ∧
    (∀ (α : Type) (pm : List Nat → Option α) (f : List Nat),
        magicBytes.length + 16 ≤ f.length →
        (f.drop (f.length - magicBytes.length)).take magicBytes.length = magicBytes →
        u64le ((f.drop (f.length - magicBytes.length - 8)).take 8) ≠ 0 →
        f.length - magicBytes.length - 8 <
          u64le ((f.drop (f.length - magicBytes.length - 8)).take 8) →
        readEmbeddedLayout pm f =
          .error "installer payload length exceeds executable size") ∧
    (∀ (α : Type) (pm : List Nat → Option α) (f : List Nat) (plen : Nat),
        magicBytes.length + 16 ≤ f.length →
        (f.drop (f.length - magicBytes.length)).take magicBytes.length = magicBytes →
        plen = u64le ((f.drop (f.length - magicBytes.length - 8)).take 8) →
        plen ≠ 0 →
        plen ≤ f.length - magicBytes.length - 8 →
        8 ≤ f.length - magicBytes.length - 8 - plen →
        u64le ((f.drop (f.length - magicBytes.length - 8 - plen - 8)).take 8) = 0 →
        readEmbeddedLayout pm f = .error "installer metadata is empty") ∧
    (∀ (α : Type) (pm : List Nat → Option α) (f : List Nat) (plen : Nat),
        magicBytes.length + 16 ≤ f.length →
        (f.drop (f.length - magicBytes.length)).take magicBytes.length = magicBytes →
        plen = u64le ((f.drop (f.length - magicBytes.length - 8)).take 8) →
        plen ≠ 0 →
        plen ≤ f.length - magicBytes.length - 8 →
        8 ≤ f.length - magicBytes.length - 8 - plen →
        u64le ((f.drop (f.length - magicBytes.length - 8 - plen - 8)).take 8) ≠ 0 →
        f.length - magicBytes.length - 8 - plen - 8 <
          u64le ((f.drop (f.length - magicBytes.length - 8 - plen - 8)).take 8) →
        readEmbeddedLayout pm f =
          .error "installer metadata length exceeds executable size") := by
  have hlen : magicBytes.length = 10 := rfl
  have hfs : lengthFieldSize = 8 := rfl
  refine ⟨?_, ?_, ?_, ?_, ?_, ?_, ?_⟩
  · intro α pm f r h
    simp only [readEmbeddedLayout] at h
    rw [hlen, hfs] at h
    by_cases h1 : f.length < 10 + 8 * 2
    · rw [if_pos h1] at h; exact Except.noConfusion h
    rw [if_neg h1] at h
    by_cases h2 : (f.drop (f.length - 10)).take 10 = magicBytes
    case neg => rw [if_pos h2] at h; exact Except.noConfusion h
    rw [if_neg (fun hn => hn h2)] at h
    rw [if_neg (show ¬ (f.length - 10 < 8) by omega)] at h
    by_cases h3 : u64le ((f.drop (f.length - 10 - 8)).take 8) = 0
    · rw [if_pos h3] at h; exact Except.noConfusion h
    rw [if_neg h3] at h
    by_cases h4 : f.length - 10 - 8 < u64le ((f.drop (f.length - 10 - 8)).take 8)
    · rw [if_pos h4] at h; exact Except.noConfusion h
    rw [if_neg h4] at h
    by_cases h5 : f.length - 10 - 8 - u64le ((f.drop (f.length - 10 - 8)).take 8) < 8
    · rw [if_pos h5] at h; exact Except.noConfusion h
    rw [if_neg h5] at h
    by_cases h6 : u64le ((f.drop
        (f.length - 10 - 8 - u64le ((f.drop (f.length - 10 - 8)).take 8) - 8)).take 8) = 0
    · rw [if_pos h6] at h; exact Except.noConfusion h
    rw [if_neg h6] at h
    by_cases h7 : f.length - 10 - 8 - u64le ((f.drop (f.length - 10 - 8)).take 8) - 8 <
        u64le ((f.drop
          (f.length - 10 - 8 - u64le ((f.drop (f.length - 10 - 8)).take 8) - 8)).take 8)
    · rw [if_pos h7] at h; exact Except.noConfusion h
    rw [if_neg h7] at h
    cases hpm : pm ((f.drop
        (f.length - 10 - 8 - u64le ((f.drop (f.length - 10 - 8)).take 8) - 8 -
          u64le ((f.drop
            (f.length - 10 - 8 - u64le ((f.drop (f.length - 10 - 8)).take 8) - 8)).take 8))).take
        (u64le ((f.drop
          (f.length - 10 - 8 - u64le ((f.drop (f.length - 10 - 8)).take 8) - 8)).take 8))) with
    | none => rw [hpm] at h; exact Except.noConfusion h
    | some m =>
      rw [hpm] at h
      injection h with h'
      subst h'
      rw [hlen]
      dsimp only
      have hdrop : (f.drop (f.length - 10)).take 10 = f.drop (f.length - 10) := by
        apply List.take_of_length_le
        rw [List.length_drop]
        omega
      refine ⟨by omega, by rw [← hdrop]; exact h2, rfl, h3, by omega, h6, by omega⟩
  · intro α pm f h1
    rw [hlen] at h1
    simp only [readEmbeddedLayout]
    rw [hlen, hfs, if_pos (show f.length < 10 + 8 * 2 by omega)]
  · intro α pm f h1 h2
    rw [hlen] at h1 h2
    simp only [readEmbeddedLayout]
    rw [hlen, hfs, if_neg (show ¬ f.length < 10 + 8 * 2 by omega), if_pos h2]
  · intro α pm f h1 h2 h3
    rw [hlen] at h1 h2 h3
    simp only [readEmbeddedLayout]
    rw [hlen, hfs, if_neg (show ¬ f.length < 10 + 8 * 2 by omega),
      if_neg (fun hn => hn h2), if_neg (show ¬ (f.length - 10 < 8) by omega), if_pos h3]
  · intro α pm f h1 h2 h3 h4
    rw [hlen] at h1 h2 h3 h4
    simp only [readEmbeddedLayout]
    rw [hlen, hfs, if_neg (show ¬ f.length < 10 + 8 * 2 by omega),
      if_neg (fun hn => hn h2), if_neg (show ¬ (f.length - 10 < 8) by omega),
      if_neg h3, if_pos h4]
  · intro α pm f plen h1 h2 hp h3 h4 h5 h6
    rw [hlen] at h1 h2 hp h4 h5 h6
    subst hp
    simp only [readEmbeddedLayout]
    rw [hlen, hfs, if_neg (show ¬ f.length < 10 + 8 * 2 by omega),
      if_neg (fun hn => hn h2), if_neg (show ¬ (f.length - 10 < 8) by omega),
      if_neg h3, if_neg (show ¬ (f.length - 10 - 8 <
        u64le ((f.drop (f.length - 10 - 8)).take 8)) by omega),
      if_neg (show ¬ (f.length - 10 - 8 - u64le ((f.drop (f.length - 10 - 8)).take 8) < 8)
        by omega), if_pos h6]
  · intro α pm f plen h1 h2 hp h3 h4 h5 h6 h7
    rw [hlen] at h1 h2 hp h4 h5 h6 h7
    subst hp
    simp only [readEmbeddedLayout]
    rw [hlen, hfs, if_neg (show ¬ f.length < 10 + 8 * 2 by omega),
      if_neg (fun hn => hn h2), if_neg (show ¬ (f.length - 10 < 8) by omega),
      if_neg h3, if_neg (show ¬ (f.length - 10 - 8 <
        u64le ((f.drop (f.length - 10 - 8)).take 8)) by omega),
      if_neg (show ¬ (f.length - 10 - 8 - u64le ((f.drop (f.length - 10 - 8)).take 8) < 8)
        by omega), if_neg h6, if_pos h7]

/-- Witness for C2: the sample image parses successfully and the soundness
conditions hold for it. -/
theorem trailer_parse_checks_witness :
    magicBytes.length + 16 ≤ sampleImage.length ∧
    sampleImage.drop (sampleImage.length - magicBytes.length) = magicBytes ∧
    ((([97] : List Nat), 1).2 : Nat) =
      u64le ((sampleImage.drop (sampleImage.length - magicBytes.length - 8)).take 8) ∧
    ((([97] : List Nat), 1).2 : Nat) ≠ 0 ∧
    ((([97] : List Nat), 1).2 : Nat) ≤ sampleImage.length - magicBytes.length - 8 ∧
    u64le ((sampleImage.drop
      (sampleImage.length - magicBytes.length - 8 - (([97] : List Nat), 1).2 - 8)).take 8) ≠ 0 ∧
    u64le ((sampleImage.drop
      (sampleImage.length - magicBytes.length - 8 - (([97] : List Nat), 1).2 - 8)).take 8)
        ≤ sampleImage.length - magicBytes.length - 8 - (([97] : List Nat), 1).2 - 8 :=
  trailer_parse_checks.1 (List Nat) some sampleImage ([97], 1) (by rfl)

lemma foldl_append_lines (chunks : List (List Nat)) (acc : List Nat) :
    chunks.foldl (fun a chunk => a ++ chunk ++ [10]) acc
      = acc ++ (chunks.map (fun c => c ++ [10])).flatten := by
  induction chunks generalizing acc with
  | nil => simp
  | cons c cs ih =>
    rw [List.foldl_cons, ih]
    simp [List.append_assoc]

lemma getLast?_append_magic (pre : List Nat) : (pre ++ magicBytes).getLast? = some 33 :=
  (@List.getLast?_append_of_ne_nil Nat pre magicBytes (by simp [magicBytes])).trans rfl

set_option maxRecDepth 20000 in
/-- C1 counterexample: the installer assembler's output file for a selected
platform is a shell script; its bytes are not of the form
`launcher || metadata || u64_le(len) || payload || u64_le(len) || "CONDADIST!"`
for any non-empty metadata and payload (the file does not even end with the
magic). -/
theorem emit_installers_not_trailer_format :
    emitInstallers c1Table c1ArchiveFor "app" [.linux64]
      = .ok [("app-linux-64.sh", writeSelfExtractingScript "app" [0])] ∧
    ¬ ∃ md pl : List Nat, md ≠ [] ∧ pl ≠ [] ∧
      writeSelfExtractingScript "app" [0]
        = [0] ++ md ++ u64leBytes md.length ++ pl ++ u64leBytes pl.length ++ magicBytes := by
  constructor
  · rfl
  · rintro ⟨md, pl, -, -, hB⟩
    have hB' : writeSelfExtractingScript "app" [0]
        = ([0] ++ md ++ u64leBytes md.length ++ pl ++ u64leBytes pl.length)
            ++ magicBytes := by
      rw [hB]
    have h33 : (writeSelfExtractingScript "app" [0]).getLast? = some 33 := by
      rw [hB']; exact getLast?_append_magic _
    have h10 : (writeSelfExtractingScript "app" [0]).getLast? = some 10 := by decide
    rw [h10] at h33
    exact absurd h33 (by decide)

/-- C1 (amended): for every selected target platform the installer
assembler writes `<env>-<platform>.sh` whose bytes are exactly the shell
prologue for the environment name followed by the standard base64 encoding
of that platform's tar+gzip archive, split into 76-byte lines each
terminated by a newline; the embedded launcher is looked up first (error
when absent) and travels inside the archive, and no metadata/length/magic
trailer is appended. -/
theorem emit_installers_script_bytes :
    (∀ (env : String) (archive : List Nat),
        writeSelfExtractingScript env archive
          = installerPrologueBytes env
            ++ ((chunksOf76 (base64Encode archive)).map (fun c => c ++ [10])).flatten) ∧
    (∀ (table : String → Option (List Nat))
        (archiveFor : Platform → List Nat → List Nat)
        (env : String) (ps : List Platform) (out : List (String × List Nat)),
        emitInstallers table archiveFor env ps = .ok out →
        out = ps.map (fun p =>
          (env ++ "-" ++ p.asStr ++ ".sh",
           writeSelfExtractingScript env (archiveFor p ((table p.asStr).getD []))))
        ∧ ∀ p ∈ ps, (table p.asStr).isSome = true) := by
  constructor
  · intro env archive
    exact foldl_append_lines _ _
  · intro table archiveFor env ps
    induction ps with
    | nil =>
      intro out h
      simp only [emitInstallers] at h
      injection h with h'
      subst h'
      simp
    | cons p rest ih =>
      intro out h
      simp only [emitInstallers] at h
      cases htab : table p.asStr with
      | none => rw [htab] at h; exact Except.noConfusion h
      | some installerBytes =>
        rw [htab] at h
        cases hrec : emitInstallers table archiveFor env rest with
        | error e => rw [hrec] at h; exact Except.noConfusion h
        | ok written =>
          rw [hrec] at h
          injection h with h'
          subst h'
          obtain ⟨hmap, hall⟩ := ih written hrec
          constructor
          · simp only [List.map_cons, htab, Option.getD_some, hmap]
          · intro p' hp'
            rcases List.mem_cons.1 hp' with rfl | hmem
            · simp [htab]
            · exact hall p' hmem

set_option maxRecDepth 20000 in
/-- Witness for C1's amended theorem at a concrete emission. -/
theorem emit_installers_script_bytes_witness :
    ([("app-linux-64.sh", writeSelfExtractingScript "app" [0])]
        = [Platform.linux64].map (fun p =>
            ("app" ++ "-" ++ p.asStr ++ ".sh",
             writeSelfExtractingScript "app" (c1ArchiveFor p ((c1Table p.asStr).getD []))))
      ∧ (c1Table Platform.linux64.asStr).isSome = true) := by
  have h := emit_installers_script_bytes.2 c1Table c1ArchiveFor "app" [Platform.linux64]
    [("app-linux-64.sh", writeSelfExtractingScript "app" [0])] (by rfl)
  exact ⟨h.1, h.2 Platform.linux64 (List.mem_singleton.2 rfl)⟩

lemma lookupName_mem : ∀ (byName : List (String × RepoDataRecord)) (n : String)
    (r : RepoDataRecord), lookupName byName n = some r → (n, r) ∈ byName := by
  intro byName
  induction byName with
  | nil => intro n r h; exact Option.noConfusion h
  | cons e rest ih =>
    intro n r h
    obtain ⟨k, v⟩ := e
    simp only [lookupName] at h
    by_cases hk : k = n
    · rw [if_pos hk] at h
      injection h with h'
      subst h' hk
      exact List.mem_cons_self _ _
    · rw [if_neg hk] at h
      exact List.mem_cons_of_mem _ (ih n r h)

lemma buildByName_entries : ∀ (platform : Platform) (rs : List RepoDataRecord)
    (acc out : List (String × RepoDataRecord)),
    buildByName platform rs acc = .ok out →
    ∀ e ∈ out, e ∈ acc ∨ (e.2 ∈ rs ∧ e.1 = e.2.name) := by
  intro platform rs
  induction rs with
  | nil =>
    intro acc out h e he
    simp only [buildByName] at h
    injection h with h'
    subst h'
    exact Or.inl he
  | cons record rest ih =>
    intro acc out h e he
    simp only [buildByName] at h
    by_cases hd : (lookupName acc record.name).isSome = true
    · rw [if_pos hd] at h; exact Except.noConfusion h
    · rw [if_neg hd] at h
      rcases ih _ _ h e he with hacc | ⟨hmem, hname⟩
      · rcases List.mem_append.1 hacc with hacc | hsing
        · exact Or.inl hacc
        · right
          rcases List.mem_singleton.1 hsing with rfl
          exact ⟨List.mem_cons_self _ _, rfl⟩
      · exact Or.inr ⟨List.mem_cons_of_mem _ hmem, hname⟩

lemma lookupName_record_mem {platform : Platform} {records : List RepoDataRecord}
    {byName : List (String × RepoDataRecord)} {n : String} {r : RepoDataRecord}
    (hb : buildByName platform records [] = .ok byName)
    (hl : lookupName byName n = some r) : r ∈ records := by
  rcases buildByName_entries platform records [] byName hb (n, r) (lookupName_mem _ _ _ hl)
    with h | ⟨h, -⟩
  · exact absurd h (List.not_mem_nil _)
  · exact h

lemma seedQueue_sound : ∀ (platform : Platform)
    (byName : List (String × RepoDataRecord)) (specs : List MatchSpec)
    (queue : List String),
    seedQueue platform byName specs = .ok queue →
    ∀ spec ∈ specs, ∃ n r, spec.name = some n ∧
      lookupName byName n = some r ∧ spec.specMatches r = true := by
  intro platform byName specs
  induction specs with
  | nil => intro queue _ spec hs; exact absurd hs (List.not_mem_nil _)
  | cons spec rest ih =>
    intro queue h s hs
    simp only [seedQueue] at h
    cases hn : spec.name with
    | none => simp only [hn] at h; exact Except.noConfusion h
    | some specName =>
      simp only [hn] at h
      cases hl : lookupName byName specName with
      | none => simp only [hl] at h; exact Except.noConfusion h
      | some record =>
        simp only [hl] at h
        by_cases hm : spec.specMatches record = true
        · rw [if_pos hm] at h
          rcases List.mem_cons.1 hs with rfl | hs'
          · exact ⟨specName, record, hn, hl, hm⟩
          · cases hrec : seedQueue platform byName rest with
            | error e => simp only [hrec] at h; exact Except.noConfusion h
            | ok names => exact ih names hrec s hs'
        · rw [if_neg hm] at h; exact Except.noConfusion h

lemma checkDeps_sound : ∀ (parse : String → Option MatchSpec)
    (platform : Platform) (byName : List (String × RepoDataRecord))
    (name : String) (deps : List String) (out : List String),
    checkDeps parse platform byName name deps = .ok out →
    ∀ dep ∈ deps, dep.startsWith "__" = false →
      ∃ depSpec depName r, parse dep = some depSpec ∧
        depSpec.name = some depName ∧ lookupName byName depName = some r ∧
        depSpec.specMatches r = true := by
  intro parse platform byName name deps
  induction deps with
  | nil => intro out _ dep hd; exact absurd hd (List.not_mem_nil _)
  | cons dependency rest ih =>
    intro out h dep hd hskip
    simp only [checkDeps] at h
    by_cases hv : dependency.startsWith "__" = true
    · rw [if_pos hv] at h
      rcases List.mem_cons.1 hd with rfl | hd'
      · rw [hv] at hskip; exact Bool.noConfusion hskip
      · exact ih out h dep hd' hskip
    · rw [if_neg hv] at h
      cases hp : parse dependency with
      | none => simp only [hp] at h; exact Except.noConfusion h
      | some depSpec =>
        simp only [hp] at h
        cases hn : depSpec.name with
        | none => simp only [hn] at h; exact Except.noConfusion h
        | some depName =>
          simp only [hn] at h
          cases hl : lookupName byName depName with
          | none => simp only [hl] at h; exact Except.noConfusion h
          | some depRecord =>
            simp only [hl] at h
            by_cases hm : depSpec.specMatches depRecord = true
            · rw [if_pos hm] at h
              rcases List.mem_cons.1 hd with rfl | hd'
              · exact ⟨depSpec, depName, depRecord, hp, hn, hl, hm⟩
              · cases hrec : checkDeps parse platform byName name rest with
                | error e => simp only [hrec] at h; exact Except.noConfusion h
                | ok names => exact ih names hrec dep hd' hskip
            · rw [if_neg hm] at h; exact Except.noConfusion h

lemma bfsValidate_sound (parse : String → Option MatchSpec)
    (platform : Platform) (byName : List (String × RepoDataRecord)) :
    ∀ (fuel : Nat) (queue visited out : List String),
    (∀ k ∈ visited, goodKey parse byName k) →
    bfsValidate parse platform byName fuel queue visited = .ok out →
    ∀ k ∈ out, goodKey parse byName k := by
  intro fuel
  induction fuel with
  | zero =>
    intro queue visited out hinv h
    cases queue with
    | nil =>
      simp only [bfsValidate] at h
      injection h with h'
      subst h'
      exact hinv
    | cons n rest => simp only [bfsValidate] at h; exact Except.noConfusion h
  | succ fuel ih =>
    intro queue visited out hinv h
    cases queue with
    | nil =>
      simp only [bfsValidate] at h
      injection h with h'
      subst h'
      exact hinv
    | cons name rest =>
      simp only [bfsValidate] at h
      cases hlook : lookupName byName name with
      | none => simp only [hlook] at h; exact Except.noConfusion h
      | some record =>
        simp only [hlook] at h
        by_cases hv : visited.contains (lockKey record) = true
        · rw [if_pos hv] at h
          exact ih rest visited out hinv h
        · rw [if_neg hv] at h
          cases hcd : checkDeps parse platform byName name record.depends with
          | error e => simp only [hcd] at h; exact Except.noConfusion h
          | ok depNames =>
            simp only [hcd] at h
            refine ih (rest ++ depNames) (visited ++ [lockKey record]) out ?_ h
            intro k hk
            rcases List.mem_append.1 hk with hk' | hk'
            · exact hinv k hk'
            · rcases List.mem_singleton.1 hk' with rfl
              exact ⟨name, record, hlook, rfl,
                checkDeps_sound parse platform byName name record.depends depNames hcd⟩

lemma validatePlatformLock_sound (parse : String → Option MatchSpec)
    (platform : Platform) (records : List RepoDataRecord)
    (specs : List MatchSpec) (visited : List String)
    (h : validatePlatformLock parse platform records specs = .ok visited) :
    (∀ spec ∈ specs, ∃ r, r ∈ records ∧ spec.specMatches r = true) ∧
    (∀ k ∈ visited, ∃ r, r ∈ records ∧ lockKey r = k ∧
      ∀ dep ∈ r.depends, dep.startsWith "__" = false →
        ∃ depSpec r', parse dep = some depSpec ∧ r' ∈ records ∧
          depSpec.specMatches r' = true) := by
  simp only [validatePlatformLock] at h
  by_cases hne : records.isEmpty = true
  · rw [if_pos hne] at h; exact Except.noConfusion h
  rw [if_neg hne] at h
  cases hb : buildByName platform records [] with
  | error e => simp only [hb] at h; exact Except.noConfusion h
  | ok byName =>
    simp only [hb] at h
    cases hs : seedQueue platform byName specs with
    | error e => simp only [hs] at h; exact Except.noConfusion h
    | ok queue =>
      simp only [hs] at h
      constructor
      · intro spec hspec
        obtain ⟨n, r, -, hl, hm⟩ := seedQueue_sound platform byName specs queue hs spec hspec
        exact ⟨r, lookupName_record_mem hb hl, hm⟩
      · intro k hk
        obtain ⟨n, r, hl, hkey, hdeps⟩ :=
          bfsValidate_sound parse platform byName (queue.length + sumDeps byName + 1)
            queue [] visited (fun k hk => absurd hk (List.not_mem_nil _)) h k hk
        refine ⟨r, lookupName_record_mem hb hl, hkey, ?_⟩
        intro dep hdep hskip
        obtain ⟨depSpec, depName, r', hp, -, hl', hm'⟩ := hdeps dep hdep hskip
        exact ⟨depSpec, r', hp, lookupName_record_mem hb hl', hm'⟩

lemma coveredKeys_sound (parse : String → Option MatchSpec)
    (records : List RepoDataRecord) (specs : List MatchSpec) :
    ∀ (targets : List Platform) (covered : List String),
    coveredKeysForTargets parse records specs targets = .ok covered →
    (∀ p ∈ targets, ∃ v, validatePlatformLock parse p
        (recordsForPlatform records p ++ recordsForPlatform records .noArch) specs
        = .ok v) ∧
    (∀ k ∈ covered, ∃ p ∈ targets, ∃ v, validatePlatformLock parse p
        (recordsForPlatform records p ++ recordsForPlatform records .noArch) specs
        = .ok v ∧ k ∈ v) := by
  intro targets
  induction targets with
  | nil =>
    intro covered h
    simp only [coveredKeysForTargets] at h
    injection h with h'
    subst h'
    exact ⟨fun p hp => absurd hp (List.not_mem_nil _),
      fun k hk => absurd hk (List.not_mem_nil _)⟩
  | cons p rest ih =>
    intro covered h
    simp only [coveredKeysForTargets] at h
    cases hv : validatePlatformLock parse p
        (recordsForPlatform records p ++ recordsForPlatform records .noArch) specs with
    | error e => simp only [hv] at h; exact Except.noConfusion h
    | ok visited =>
      simp only [hv] at h
      cases hrec : coveredKeysForTargets parse records specs rest with
      | error e => simp only [hrec] at h; exact Except.noConfusion h
      | ok others =>
        simp only [hrec] at h
        injection h with h'
        subst h'
        obtain ⟨ih1, ih2⟩ := ih others hrec
        constructor
        · intro p' hp'
          rcases List.mem_cons.1 hp' with rfl | hp''
          · exact ⟨visited, hv⟩
          · exact ih1 p' hp''
        · intro k hk
          rcases List.mem_append.1 hk with hk' | hk'
          · exact ⟨p, List.mem_cons_self _ _, visited, hv, hk'⟩
          · obtain ⟨p', hp', v, hvv, hkv⟩ := ih2 k hk'
            exact ⟨p', List.mem_cons_of_mem _ hp', v, hvv, hkv⟩

lemma mem_recordsForPair {records : List RepoDataRecord} {p : Platform}
    {r : RepoDataRecord}
    (h : r ∈ recordsForPlatform records p ++ recordsForPlatform records .noArch) :
    r ∈ records ∧ (platformOf r = some p ∨ platformOf r = some .noArch) := by
  rcases List.mem_append.1 h with h' | h'
  · obtain ⟨hm, hf⟩ := List.mem_filter.1 h'
    exact ⟨hm, Or.inl (by simpa using hf)⟩
  · obtain ⟨hm, hf⟩ := List.mem_filter.1 h'
    exact ⟨hm, Or.inr (by simpa using hf)⟩

lemma validateLockfile_ok_parts {parse : String → Option MatchSpec}
    {records : List RepoDataRecord} {specs : List MatchSpec}
    {targets : List Platform}
    (h : validateLockfile parse records specs targets = .ok ()) :
    firstUnrecognisedSubdir records = none ∧
    ∃ covered, coveredKeysForTargets parse records specs targets = .ok covered ∧
      setEqStr covered (records.map lockKey) = true := by
  simp only [validateLockfile] at h
  cases hf : firstUnrecognisedSubdir records with
  | some r => simp only [hf] at h; exact Except.noConfusion h
  | none =>
    simp only [hf] at h
    cases hc : coveredKeysForTargets parse records specs targets with
    | error e => simp only [hc] at h; exact Except.noConfusion h
    | ok covered =>
      simp only [hc] at h
      by_cases hs : setEqStr covered (records.map lockKey) = true
      · exact ⟨rfl, covered, rfl, hs⟩
      · rw [if_neg hs] at h; exact Except.noConfusion h

/-- C3 (validator soundness): whenever `validate_lockfile` returns Ok for
records R, manifest specs S and targets T, then for every platform p in T
every spec in S is matched by a record of R from p or noarch, and every
record visited by the BFS closure has each of its non-`__` dependency
strings parsed and satisfied by a record of R from p or noarch. -/
theorem validator_soundness (parse : String → Option MatchSpec)
    (records : List RepoDataRecord) (specs : List MatchSpec)
    (targets : List Platform)
    (h : validateLockfile parse records specs targets = .ok ()) :
    ∀ p ∈ targets,
      (∀ spec ∈ specs, ∃ r, r ∈ records ∧
          (platformOf r = some p ∨ platformOf r = some .noArch) ∧
          spec.specMatches r = true) ∧
      ∃ visited, validatePlatformLock parse p
          (recordsForPlatform records p ++ recordsForPlatform records .noArch) specs
          = .ok visited ∧
        ∀ key ∈ visited, ∃ r, r ∈ records ∧
          (platformOf r = some p ∨ platformOf r = some .noArch) ∧ lockKey r = key ∧
          ∀ dep ∈ r.depends, dep.startsWith "__" = false →
            ∃ depSpec r', parse dep = some depSpec ∧ r' ∈ records ∧
              (platformOf r' = some p ∨ platformOf r' = some .noArch) ∧
              depSpec.specMatches r' = true := by
  obtain ⟨-, covered, hc, -⟩ := validateLockfile_ok_parts h
  intro p hp
  obtain ⟨v, hv⟩ := (coveredKeys_sound parse records specs targets covered hc).1 p hp
  obtain ⟨hspecs, hvisited⟩ := validatePlatformLock_sound parse p _ specs v hv
  constructor
  · intro spec hspec
    obtain ⟨r, hr, hm⟩ := hspecs spec hspec
    obtain ⟨hrm, hside⟩ := mem_recordsForPair hr
    exact ⟨r, hrm, hside, hm⟩
  · refine ⟨v, hv, ?_⟩
    intro key hkey
    obtain ⟨r, hr, hk, hdeps⟩ := hvisited key hkey
    obtain ⟨hrm, hside⟩ := mem_recordsForPair hr
    refine ⟨r, hrm, hside, hk, ?_⟩
    intro dep hdep hskip
    obtain ⟨depSpec, r', hp', hr', hm'⟩ := hdeps dep hdep hskip
    obtain ⟨hrm', hside'⟩ := mem_recordsForPair hr'
    exact ⟨depSpec, r', hp', hrm', hside', hm'⟩

/-- C4 (no extraneous lock entries): when `validate_lockfile` returns Ok,
every record's key is visited by the BFS closure of some target platform;
and when the union of visited keys over the targets differs from the set
of all record keys, validation fails with the extraneous-packages
message. -/
theorem validator_no_extraneous :
    (∀ (parse : String → Option MatchSpec) (records : List RepoDataRecord)
        (specs : List MatchSpec) (targets : List Platform),
        validateLockfile parse records specs targets = .ok () →
        ∀ r ∈ records, ∃ p ∈ targets, ∃ visited,
          validatePlatformLock parse p
            (recordsForPlatform records p ++ recordsForPlatform records .noArch) specs
            = .ok visited ∧ lockKey r ∈ visited) ∧
    (∀ (parse : String → Option MatchSpec) (records : List RepoDataRecord)
        (specs : List MatchSpec) (targets : List Platform) (covered : List String),
        firstUnrecognisedSubdir records = none →
        coveredKeysForTargets parse records specs targets = .ok covered →
        setEqStr covered (records.map lockKey) = false →
        ∃ rest, validateLockfile parse records specs targets
          = .error ("lockfile contains package(s) unrelated to manifest dependencies: "
              ++ rest)) := by
  constructor
  · intro parse records specs targets h r hr
    obtain ⟨-, covered, hc, hset⟩ := validateLockfile_ok_parts h
    have hall : (records.map lockKey).all (fun k => covered.contains k) = true := by
      have h' := hset
      simp only [setEqStr, Bool.and_eq_true] at h'
      exact h'.2
    have hkm : lockKey r ∈ covered := by
      have := List.all_eq_true.1 hall (lockKey r) (List.mem_map_of_mem lockKey hr)
      simpa using this
    exact (coveredKeys_sound parse records specs targets covered hc).2 (lockKey r) hkm
  · intro parse records specs targets covered hf hc hs
    refine ⟨String.intercalate ", "
      ((records.map lockKey).filter (fun k => !(covered.contains k))), ?_⟩
    simp [validateLockfile, hf, hc, hs]

/-- Witness for C3 at the concrete valid lockfile. -/
theorem validator_soundness_witness :
    ∃ r, r ∈ wRecords ∧
      (platformOf r = some .linux64 ∨ platformOf r = some .noArch) ∧
      wSpecA.specMatches r = true :=
  ((validator_soundness wParse wRecords [wSpecA] [.linux64] rfl .linux64
      (List.mem_singleton.2 rfl)).1 wSpecA (List.mem_singleton.2 rfl))

/-- Witness for C4 at the concrete valid lockfile. -/
theorem validator_no_extraneous_witness :
    ∃ p ∈ [Platform.linux64], ∃ visited,
      validatePlatformLock wParse p
        (recordsForPlatform wRecords p ++ recordsForPlatform wRecords .noArch)
        [wSpecA] = .ok visited ∧ lockKey wRecB ∈ visited :=
  validator_no_extraneous.1 wParse wRecords [wSpecA] [.linux64] rfl wRecB
    (by simp [wRecords])

lemma insertRecords_eq : ∀ (rs : List RepoDataRecord)
    (seen : List (String × String)) (combined : List RepoDataRecord),
    insertRecords seen combined rs
      = (seen ++ (dedupByKeyAux seen rs).map recordKey,
         combined ++ dedupByKeyAux seen rs) := by
  intro rs
  induction rs with
  | nil => intro seen combined; simp [insertRecords, dedupByKeyAux]
  | cons r rest ih =>
    intro seen combined
    simp only [insertRecords, dedupByKeyAux]
    by_cases hm : recordKey r ∈ seen
    · rw [if_pos hm, if_pos hm, ih]
    · rw [if_neg hm, if_neg hm, ih]
      simp [List.append_assoc]

lemma dedupByKeyAux_append : ∀ (xs ys : List RepoDataRecord)
    (seen : List (String × String)),
    dedupByKeyAux seen (xs ++ ys)
      = dedupByKeyAux seen xs
        ++ dedupByKeyAux (seen ++ (dedupByKeyAux seen xs).map recordKey) ys := by
  intro xs
  induction xs with
  | nil => intro ys seen; simp [dedupByKeyAux]
  | cons x rest ih =>
    intro ys seen
    simp only [List.cons_append, List.append_eq, dedupByKeyAux]
    by_cases hm : recordKey x ∈ seen
    · rw [if_pos hm, if_pos hm, ih]
    · rw [if_neg hm, if_neg hm]
      rw [ih]
      simp [List.append_assoc]

lemma solveAllPlatforms_ok (solve : Platform → Except String (List RepoDataRecord))
    (results : Platform → List RepoDataRecord) :
    ∀ (ps : List Platform) (seen : List (String × String))
      (combined : List RepoDataRecord),
    (∀ p ∈ ps, solve p = .ok (results p)) →
    solveAllPlatforms solve ps seen combined
      = (.ok (combined ++ dedupByKeyAux seen ((ps.map results).flatten)), ps) := by
  intro ps
  induction ps with
  | nil => intro seen combined _; simp [solveAllPlatforms, dedupByKeyAux]
  | cons p rest ih =>
    intro seen combined hall
    simp only [solveAllPlatforms]
    rw [hall p (List.mem_cons_self _ _)]
    simp only [insertRecords_eq]
    rw [ih _ _ (fun p' hp' => hall p' (List.mem_cons_of_mem _ hp'))]
    simp only [List.map_cons, List.flatten_cons, dedupByKeyAux_append,
      List.append_assoc]

lemma dedupByKeyAux_nodup : ∀ (rs : List RepoDataRecord)
    (seen : List (String × String)),
    ((dedupByKeyAux seen rs).map recordKey).Nodup ∧
    ∀ k ∈ (dedupByKeyAux seen rs).map recordKey, k ∉ seen := by
  intro rs
  induction rs with
  | nil => intro seen; simp [dedupByKeyAux]
  | cons r rest ih =>
    intro seen
    simp only [dedupByKeyAux]
    by_cases hm : recordKey r ∈ seen
    · rw [if_pos hm]; exact ih seen
    · rw [if_neg hm]
      obtain ⟨ihnd, ihnotin⟩ := ih (seen ++ [recordKey r])
      simp only [List.map_cons, List.nodup_cons]
      refine ⟨⟨?_, ihnd⟩, ?_⟩
      · intro hk
        have := ihnotin (recordKey r) hk
        simp at this
      · intro k hk
        rcases List.mem_cons.1 hk with rfl | hk'
        · exact hm
        · intro hks
          exact ihnotin k hk' (List.mem_append_left _ hks)

lemma dedupByKeyAux_sublist : ∀ (rs : List RepoDataRecord)
    (seen : List (String × String)), List.Sublist (dedupByKeyAux seen rs) rs := by
  intro rs
  induction rs with
  | nil => intro seen; simp [dedupByKeyAux]
  | cons r rest ih =>
    intro seen
    simp only [dedupByKeyAux]
    by_cases hm : recordKey r ∈ seen
    · rw [if_pos hm]; exact (ih seen).cons r
    · rw [if_neg hm]; exact (ih (seen ++ [recordKey r])).cons₂ r

lemma dedupByKeyAux_covers : ∀ (rs : List RepoDataRecord)
    (seen : List (String × String)) (r : RepoDataRecord), r ∈ rs →
    recordKey r ∈ seen ∨ recordKey r ∈ (dedupByKeyAux seen rs).map recordKey := by
  intro rs
  induction rs with
  | nil => intro seen r hr; exact absurd hr (List.not_mem_nil _)
  | cons x rest ih =>
    intro seen r hr
    simp only [dedupByKeyAux]
    by_cases hm : recordKey x ∈ seen
    · rw [if_pos hm]
      rcases List.mem_cons.1 hr with rfl | hr'
      · exact Or.inl hm
      · exact ih seen r hr'
    · rw [if_neg hm]
      rcases List.mem_cons.1 hr with rfl | hr'
      · exact Or.inr (by simp)
      · rcases ih (seen ++ [recordKey x]) r hr' with hs | hd
        · rcases List.mem_append.1 hs with hs' | hs'
          · exact Or.inl hs'
          · exact Or.inr (by simp [List.mem_singleton.1 hs'])
        · exact Or.inr (List.mem_cons_of_mem _ hd)

lemma dedupByKeyAux_first : ∀ (rs : List RepoDataRecord)
    (seen : List (String × String)) (r : RepoDataRecord),
    r ∈ dedupByKeyAux seen rs →
    recordKey r ∉ seen ∧
    rs.find? (fun x => recordKey x == recordKey r) = some r := by
  intro rs
  induction rs with
  | nil => intro seen r hr; exact absurd hr (List.not_mem_nil _)
  | cons x rest ih =>
    intro seen r hr
    simp only [dedupByKeyAux] at hr
    by_cases hm : recordKey x ∈ seen
    · rw [if_pos hm] at hr
      obtain ⟨hnot, hfind⟩ := ih seen r hr
      have hne : (recordKey x == recordKey r) = false := by
        rw [beq_eq_false_iff_ne]
        intro he
        exact hnot (he ▸ hm)
      refine ⟨hnot, ?_⟩
      rw [List.find?_cons, hne]
      exact hfind
    · rw [if_neg hm] at hr
      rcases List.mem_cons.1 hr with rfl | hr'
      · refine ⟨hm, ?_⟩
        rw [List.find?_cons, beq_self_eq_true]
      · obtain ⟨hnot, hfind⟩ := ih (seen ++ [recordKey x]) r hr'
        have hxr : recordKey x ≠ recordKey r := by
          intro he
          exact hnot (by simp [he])
        refine ⟨fun hs => hnot (List.mem_append_left _ hs), ?_⟩
        rw [List.find?_cons, beq_eq_false_iff_ne.2 hxr]
        exact hfind

lemma downloadEntries_eq : ∀ (rs : List RepoDataRecord)
    (seen : List (String × String)),
    downloadEntries seen rs = (dedupByKeyAux seen rs).map toPackageEntry := by
  intro rs
  induction rs with
  | nil => intro seen; simp [downloadEntries, dedupByKeyAux]
  | cons r rest ih =>
    intro seen
    simp only [downloadEntries, dedupByKeyAux]
    by_cases hm : recordKey r ∈ seen
    · rw [if_pos hm, if_pos hm]; exact ih seen
    · rw [if_neg hm, if_neg hm]
      simp [ih]

/-- C7 (aggregation dedup): when every per-platform solve succeeds, the
combined record list is the concatenation of the per-platform results in
manifest platform order, deduplicated to the first occurrence of each
`(subdir, file_name)` key; the surviving keys are pairwise distinct, the
survivors appear in first-seen order (a sublist of the concatenated
inputs), every input key survives, each survivor is the first input record
with its key, and the downloader applies the same first-seen dedup to the
records it is handed. -/
theorem solve_aggregation_dedup :
    (∀ (solve : Platform → Except String (List RepoDataRecord))
        (results : Platform → List RepoDataRecord) (ps : List Platform),
        (∀ p ∈ ps, solve p = .ok (results p)) →
        solveAllPlatforms solve ps [] []
          = (.ok (dedupByKey ((ps.map results).flatten)), ps)) ∧
    (∀ rs : List RepoDataRecord, ((dedupByKey rs).map recordKey).Nodup) ∧
    (∀ rs : List RepoDataRecord, List.Sublist (dedupByKey rs) rs) ∧
    (∀ (rs : List RepoDataRecord) (r : RepoDataRecord), r ∈ rs →
        recordKey r ∈ (dedupByKey rs).map recordKey) ∧
    (∀ (rs : List RepoDataRecord) (r : RepoDataRecord), r ∈ dedupByKey rs →
        rs.find? (fun x => recordKey x == recordKey r) = some r) ∧
    (∀ rs : List RepoDataRecord,
        downloadEntries [] rs = (dedupByKey rs).map toPackageEntry) := by
  refine ⟨?_, ?_, ?_, ?_, ?_, ?_⟩
  · intro solve results ps hall
    have := solveAllPlatforms_ok solve results ps [] [] hall
    simpa [dedupByKey] using this
  · intro rs
    exact (dedupByKeyAux_nodup rs []).1
  · intro rs
    exact dedupByKeyAux_sublist rs []
  · intro rs r hr
    rcases dedupByKeyAux_covers rs [] r hr with h | h
    · exact absurd h (List.not_mem_nil _)
    · exact h
  · intro rs r hr
    exact (dedupByKeyAux_first rs [] r hr).2
  · intro rs
    exact downloadEntries_eq rs []

/-- Witness for C7 at a concrete two-platform solve with an overlapping
noarch record. -/
theorem solve_aggregation_dedup_witness :
    solveAllPlatforms
        (fun p => .ok (if p = Platform.linux64 then [wRecA, wRecB] else [wRecB]))
        [Platform.linux64, Platform.osx64] [] []
      = (.ok (dedupByKey
          (([Platform.linux64, Platform.osx64].map
            (fun p => if p = Platform.linux64 then [wRecA, wRecB] else [wRecB])).flatten)),
         [Platform.linux64, Platform.osx64]) :=
  solve_aggregation_dedup.1
    (fun p => .ok (if p = Platform.linux64 then [wRecA, wRecB] else [wRecB]))
    (fun p => if p = Platform.linux64 then [wRecA, wRecB] else [wRecB])
    [Platform.linux64, Platform.osx64] (fun _ _ => rfl)

lemma solveAllPlatforms_head (solve : Platform → Except String (List RepoDataRecord))
    (p : Platform) (rest : List Platform) (seen : List (String × String))
    (combined : List RepoDataRecord) :
    ∃ tl, (solveAllPlatforms solve (p :: rest) seen combined).2 = p :: tl := by
  simp only [solveAllPlatforms]
  cases solve p <;> simp

lemma prepareEnvironmentTail_reuse
    (existing : List RepoDataRecord)
    (solve : Platform → Except String (List RepoDataRecord))
    (dm : List RepoDataRecord → Except String Unit)
    (dl : List RepoDataRecord → Except String Unit)
    (targets : List Platform) (mode : LockMode) (ev : List PipelineEvent)
    (hmode : mode ≠ LockMode.unlock) :
    (∀ recs reused,
        (prepareEnvironmentTail existing solve dm dl targets mode true none ev).1
          = .ok (recs, reused) → recs = existing ∧ reused = true) ∧
    ((prepareEnvironmentTail existing solve dm dl targets mode true none ev).2 = ev ∨
     (prepareEnvironmentTail existing solve dm dl targets mode true none ev).2
       = ev ++ [.downloadPackages existing] ∨
     (prepareEnvironmentTail existing solve dm dl targets mode true none ev).2
       = ev ++ [.downloadPackages existing, .writeWorkspaceLockfile existing,
           .writeBundleLockfile existing]) := by
  cases mode with
  | unlock => exact absurd rfl hmode
  | locked =>
    simp only [prepareEnvironmentTail, Option.isNone_none, Bool.and_true, Bool.true_and]
    cases hdm : dm existing with
    | error e => simp [hdm]
    | ok u =>
      cases hdl : dl existing with
      | error e => simp [hdm, hdl]
      | ok u' =>
        simp [hdm, hdl]
  | auto =>
    simp only [prepareEnvironmentTail, Option.isNone_none, Bool.and_true, Bool.true_and]
    cases hdm : dm existing with
    | error e => simp [hdm]
    | ok u =>
      cases hdl : dl existing with
      | error e => simp [hdm, hdl]
      | ok u' =>
        simp [hdm, hdl]

lemma prepareEnvironmentTail_resolve
    (existing : List RepoDataRecord)
    (solve : Platform → Except String (List RepoDataRecord))
    (dm : List RepoDataRecord → Except String Unit)
    (dl : List RepoDataRecord → Except String Unit)
    (targets : List Platform) (mode : LockMode) (exists' : Bool)
    (lockError : Option String) (ev : List PipelineEvent)
    (hnot : ¬ (mode = LockMode.locked ∧ lockError.isSome = true))
    (hLR : (exists' && lockError.isNone && decide (¬ mode = LockMode.unlock)) = false) :
    (∀ recs reused,
        (prepareEnvironmentTail existing solve dm dl targets mode exists' lockError ev).1
          = .ok (recs, reused) → reused = false) ∧
    (∀ p rest, targets = p :: rest →
        PipelineEvent.solvePlatform p ∈
          (prepareEnvironmentTail existing solve dm dl targets mode exists' lockError ev).2) := by
  have core : ∀ ev' : List PipelineEvent,
      (∀ recs reused,
          ((match (solveAllPlatforms solve targets [] []).1 with
            | .error e => (Except.error e,
                ev' ++ (solveAllPlatforms solve targets [] []).2.map PipelineEvent.solvePlatform)
            | .ok solvedRecords =>
              match dm solvedRecords with
              | .error e => (Except.error e,
                  ev' ++ (solveAllPlatforms solve targets [] []).2.map PipelineEvent.solvePlatform)
              | .ok _ =>
                match dl solvedRecords with
                | .error e => (Except.error e,
                    ev' ++ (solveAllPlatforms solve targets [] []).2.map PipelineEvent.solvePlatform
                      ++ [.downloadPackages solvedRecords])
                | .ok _ =>
                  (Except.ok (solvedRecords, false),
                   ev' ++ (solveAllPlatforms solve targets [] []).2.map PipelineEvent.solvePlatform
                     ++ [.downloadPackages solvedRecords,
                         .writeWorkspaceLockfile solvedRecords,
                         .writeBundleLockfile solvedRecords]) :
            Except String (List RepoDataRecord × Bool) × List PipelineEvent)).1
            = .ok (recs, reused) → reused = false) ∧
      (∀ p rest, targets = p :: rest →
          PipelineEvent.solvePlatform p ∈
            ((match (solveAllPlatforms solve targets [] []).1 with
              | .error e => (Except.error e,
                  ev' ++ (solveAllPlatforms solve targets [] []).2.map PipelineEvent.solvePlatform)
              | .ok solvedRecords =>
                match dm solvedRecords with
                | .error e => (Except.error e,
                    ev' ++ (solveAllPlatforms solve targets [] []).2.map PipelineEvent.solvePlatform)
                | .ok _ =>
                  match dl solvedRecords with
                  | .error e => (Except.error e,
                      ev' ++ (solveAllPlatforms solve targets [] []).2.map PipelineEvent.solvePlatform
                        ++ [.downloadPackages solvedRecords])
                  | .ok _ =>
                    (Except.ok (solvedRecords, false),
                     ev' ++ (solveAllPlatforms solve targets [] []).2.map PipelineEvent.solvePlatform
                       ++ [.downloadPackages solvedRecords,
                           .writeWorkspaceLockfile solvedRecords,
                           .writeBundleLockfile solvedRecords]) :
              Except String (List RepoDataRecord × Bool) × List PipelineEvent)).2) := by
    intro ev'
    constructor
    · intro recs reused h
      cases hs : (solveAllPlatforms solve targets [] []).1 with
      | error e => simp only [hs] at h; exact Except.noConfusion h
      | ok solvedRecords =>
        simp only [hs] at h
        cases hdm : dm solvedRecords with
        | error e => simp only [hdm] at h; exact Except.noConfusion h
        | ok u =>
          simp only [hdm] at h
          cases hdl : dl solvedRecords with
          | error e => simp only [hdl] at h; exact Except.noConfusion h
          | ok u' =>
            simp only [hdl] at h
            simp only [Except.ok.injEq, Prod.mk.injEq] at h
            exact h.2.symm
    · intro p rest htargets
      subst htargets
      obtain ⟨tl, htl⟩ := solveAllPlatforms_head solve p rest [] []
      have hmem : PipelineEvent.solvePlatform p ∈
          (solveAllPlatforms solve (p :: rest) [] []).2.map PipelineEvent.solvePlatform := by
        rw [htl]; exact List.mem_cons_self _ _
      cases hs : (solveAllPlatforms solve (p :: rest) [] []).1 with
      | error e =>
        simp only [hs]
        exact List.mem_append_right _ hmem
      | ok solvedRecords =>
        simp only [hs]
        cases hdm : dm solvedRecords with
        | error e => exact List.mem_append_right _ hmem
        | ok u =>
          cases hdl : dl solvedRecords with
          | error e =>
            exact List.mem_append_left _ (List.mem_append_right _ hmem)
          | ok u' =>
            exact List.mem_append_left _ (List.mem_append_right _ hmem)
  cases mode with
  | unlock =>
    have : (exists' && lockError.isNone && decide (¬ LockMode.unlock = LockMode.unlock))
        = false := by simp
    cases lockError with
    | none =>
      simp only [prepareEnvironmentTail, Option.isNone_none, decide_not, decide_True,
        Bool.not_true, Bool.and_false]
      exact core _
    | some r =>
      simp only [prepareEnvironmentTail, Option.isNone_some, decide_not, decide_True,
        Bool.not_true, Bool.and_false, Bool.false_and]
      exact core _
  | locked =>
    cases lockError with
    | some r => exact absurd ⟨rfl, rfl⟩ hnot
    | none =>
      have hex : exists' = false := by
        simpa using hLR
      subst hex
      simp only [prepareEnvironmentTail, Option.isNone_none, Bool.and_true,
        Bool.false_and, Bool.true_and]
      exact core _
  | auto =>
    cases lockError with
    | some r =>
      simp only [prepareEnvironmentTail, Option.isNone_some, Bool.and_false,
        Bool.false_and]
      exact core _
    | none =>
      have hex : exists' = false := by
        simpa using hLR
      subst hex
      simp only [prepareEnvironmentTail, Option.isNone_none, Bool.and_true,
        Bool.false_and, Bool.true_and]
      exact core _

/-- C5 (LockMode decision): with channels parsed and a non-empty spec
list, the pipeline follows the transition table — Unlock always re-solves;
Locked fails when the lockfile is missing (with the missing-lockfile
message) or stale (reporting the validator's reason) and reuses when
valid; Auto reuses when valid and re-solves when missing or stale — and in
every reuse case no solve event occurs and the records handed to the
download and lockfile-write steps, as well as the returned solved list,
equal the records loaded from the lockfile for the targets plus noarch. -/
theorem lock_mode_decision (parse : String → Option MatchSpec)
    (specs : List MatchSpec) (lockfilePath : String)
    (loadLocked : List Platform → List RepoDataRecord)
    (solve : Platform → Except String (List RepoDataRecord))
    (deriveMetadata : List RepoDataRecord → Except String Unit)
    (download : List RepoDataRecord → Except String Unit)
    (targets : List Platform)
    (hspecs : specs.isEmpty = false) :
    (∀ lockfileExists,
      (∀ recs reused,
        (prepareEnvironment parse (.ok ()) specs lockfilePath lockfileExists
          loadLocked solve deriveMetadata download targets .unlock).1
          = .ok (recs, reused) → reused = false) ∧
      (∀ p rest, targets = p :: rest →
        PipelineEvent.solvePlatform p ∈
          (prepareEnvironment parse (.ok ()) specs lockfilePath lockfileExists
            loadLocked solve deriveMetadata download targets .unlock).2)) ∧
    (prepareEnvironment parse (.ok ()) specs lockfilePath false loadLocked solve
        deriveMetadata download targets .locked
      = (.error ("lockfile required by --locked but not found at " ++ lockfilePath
          ++ "; generate it with --unlock"),
         [.createStagingDir, .parseChannels, .buildGateway])) ∧
    (∀ reason,
      validateLockfile parse (loadLocked (augmentWithNoarch targets)) specs targets
        = .error reason →
      prepareEnvironment parse (.ok ()) specs lockfilePath true loadLocked solve
          deriveMetadata download targets .locked
        = (.error ("lockfile is out of date: " ++ reason),
           [.createStagingDir, .parseChannels, .buildGateway, .loadLockfile,
            .validateLockfileRecords])) ∧
    (∀ mode, mode ≠ LockMode.unlock →
      validateLockfile parse (loadLocked (augmentWithNoarch targets)) specs targets
        = .ok () →
      (∀ p, PipelineEvent.solvePlatform p ∉
        (prepareEnvironment parse (.ok ()) specs lockfilePath true loadLocked solve
          deriveMetadata download targets mode).2) ∧
      (∀ recs reused,
        (prepareEnvironment parse (.ok ()) specs lockfilePath true loadLocked solve
          deriveMetadata download targets mode).1 = .ok (recs, reused) →
        recs = loadLocked (augmentWithNoarch targets) ∧ reused = true) ∧
      (∀ rs, PipelineEvent.downloadPackages rs ∈
          (prepareEnvironment parse (.ok ()) specs lockfilePath true loadLocked solve
            deriveMetadata download targets mode).2 →
        rs = loadLocked (augmentWithNoarch targets)) ∧
      (∀ rs, PipelineEvent.writeWorkspaceLockfile rs ∈
          (prepareEnvironment parse (.ok ()) specs lockfilePath true loadLocked solve
            deriveMetadata download targets mode).2 →
        rs = loadLocked (augmentWithNoarch targets)) ∧
      (∀ rs, PipelineEvent.writeBundleLockfile rs ∈
          (prepareEnvironment parse (.ok ()) specs lockfilePath true loadLocked solve
            deriveMetadata download targets mode).2 →
        rs = loadLocked (augmentWithNoarch targets))) ∧
    ((∀ recs reused,
        (prepareEnvironment parse (.ok ()) specs lockfilePath false loadLocked solve
          deriveMetadata download targets .auto).1 = .ok (recs, reused) →
        reused = false) ∧
     (∀ p rest, targets = p :: rest →
        PipelineEvent.solvePlatform p ∈
          (prepareEnvironment parse (.ok ()) specs lockfilePath false loadLocked solve
            deriveMetadata download targets .auto).2) ∧
     (∀ reason,
        validateLockfile parse (loadLocked (augmentWithNoarch targets)) specs targets
          = .error reason →
        (∀ recs reused,
          (prepareEnvironment parse (.ok ()) specs lockfilePath true loadLocked solve
            deriveMetadata download targets .auto).1 = .ok (recs, reused) →
          reused = false) ∧
        (∀ p rest, targets = p :: rest →
          PipelineEvent.solvePlatform p ∈
            (prepareEnvironment parse (.ok ()) specs lockfilePath true loadLocked solve
              deriveMetadata download targets .auto).2))) := by
  have hval : ∀ b : Bool,
      prepareEnvironment parse (.ok ()) specs lockfilePath b loadLocked solve
        deriveMetadata download targets .unlock
      = prepareEnvironmentTail
          (if b then loadLocked (augmentWithNoarch targets) else [])
          solve deriveMetadata download targets .unlock b none
          ([.createStagingDir, .parseChannels, .buildGateway]
            ++ (if b then [.loadLockfile] else [])) := by
    intro b
    simp [prepareEnvironment, hspecs]
  refine ⟨?_, ?_, ?_, ?_, ?_, ?_, ?_⟩
  · intro lockfileExists
    rw [hval]
    exact prepareEnvironmentTail_resolve _ _ _ _ _ _ _ _ _
      (by simp) (by simp)
  · simp [prepareEnvironment, hspecs]
  · intro reason hstale
    simp only [prepareEnvironment, hspecs, Bool.false_eq_true, if_false, if_true,
      hstale]
    simp [prepareEnvironmentTail]
  · intro mode hmode hvalid
    have heq : prepareEnvironment parse (.ok ()) specs lockfilePath true loadLocked
        solve deriveMetadata download targets mode
      = prepareEnvironmentTail (loadLocked (augmentWithNoarch targets)) solve
          deriveMetadata download targets mode true none
          [.createStagingDir, .parseChannels, .buildGateway, .loadLockfile,
            .validateLockfileRecords] := by
      cases mode with
      | unlock => exact absurd rfl hmode
      | locked => simp [prepareEnvironment, hspecs, hvalid]
      | auto => simp [prepareEnvironment, hspecs, hvalid]
    obtain ⟨hok, hshape⟩ := prepareEnvironmentTail_reuse
      (loadLocked (augmentWithNoarch targets)) solve deriveMetadata download targets
      mode
      [.createStagingDir, .parseChannels, .buildGateway, .loadLockfile,
        .validateLockfileRecords] hmode
    rw [heq]
    refine ⟨?_, ?_, ?_, ?_, ?_⟩
    · intro p hp
      rcases hshape with hsh | hsh | hsh <;> rw [hsh] at hp <;> simp at hp
    · intro recs reused h
      exact hok recs reused h
    · intro rs hrs
      rcases hshape with hsh | hsh | hsh <;> rw [hsh] at hrs <;> simp at hrs <;>
        simp [hrs]
    · intro rs hrs
      rcases hshape with hsh | hsh | hsh <;> rw [hsh] at hrs <;> simp at hrs <;>
        simp [hrs]
    · intro rs hrs
      rcases hshape with hsh | hsh | hsh <;> rw [hsh] at hrs <;> simp at hrs <;>
        simp [hrs]
  · intro recs reused h
    have heq : prepareEnvironment parse (.ok ()) specs lockfilePath false loadLocked
        solve deriveMetadata download targets .auto
      = prepareEnvironmentTail [] solve deriveMetadata download targets .auto false
          none [.createStagingDir, .parseChannels, .buildGateway] := by
      simp [prepareEnvironment, hspecs]
    rw [heq] at h
    exact (prepareEnvironmentTail_resolve _ _ _ _ _ _ _ _ _
      (by simp) (by simp)).1 recs reused h
  · intro p rest htargets
    have heq : prepareEnvironment parse (.ok ()) specs lockfilePath false loadLocked
        solve deriveMetadata download targets .auto
      = prepareEnvironmentTail [] solve deriveMetadata download targets .auto false
          none [.createStagingDir, .parseChannels, .buildGateway] := by
      simp [prepareEnvironment, hspecs]
    rw [heq]
    exact (prepareEnvironmentTail_resolve _ _ _ _ _ _ _ _ _
      (by simp) (by simp)).2 p rest htargets
  · intro reason hstale
    have heq : prepareEnvironment parse (.ok ()) specs lockfilePath true loadLocked
        solve deriveMetadata download targets .auto
      = prepareEnvironmentTail (loadLocked (augmentWithNoarch targets)) solve
          deriveMetadata download targets .auto true (some reason)
          [.createStagingDir, .parseChannels, .buildGateway, .loadLockfile,
            .validateLockfileRecords] := by
      simp [prepareEnvironment, hspecs, hstale]
    constructor
    · intro recs reused h
      rw [heq] at h
      exact (prepareEnvironmentTail_resolve _ _ _ _ _ _ _ _ _
        (by simp) (by simp)).1 recs reused h
    · intro p rest htargets
      rw [heq]
      exact (prepareEnvironmentTail_resolve _ _ _ _ _ _ _ _ _
        (by simp) (by simp)).2 p rest htargets

/-- C10: with channels parsed, a manifest whose dependency map converts to
an empty spec list makes `prepare_environment` fail with "no dependencies
specified in manifest" before building the repodata gateway, loading or
validating the lockfile, solving, downloading, or writing either lockfile:
the trace stops at staging-dir creation and channel parsing. -/
theorem empty_specs_early_error (parse : String → Option MatchSpec)
    (lockfilePath : String) (lockfileExists : Bool)
    (loadLocked : List Platform → List RepoDataRecord)
    (solve : Platform → Except String (List RepoDataRecord))
    (deriveMetadata : List RepoDataRecord → Except String Unit)
    (download : List RepoDataRecord → Except String Unit)
    (targets : List Platform) (lockMode : LockMode)
    (specs : List MatchSpec) (hspecs : specs = []) :
    prepareEnvironment parse (.ok ()) specs lockfilePath lockfileExists loadLocked
        solve deriveMetadata download targets lockMode
      = (.error "no dependencies specified in manifest",
         [.createStagingDir, .parseChannels]) := by
  subst hspecs
  simp [prepareEnvironment]

/-- Witness for C10 at concrete inputs. -/
theorem empty_specs_early_error_witness :
    prepareEnvironment wParse (.ok ()) [] "conda-lock.yml" true (fun _ => wRecords)
        (fun _ => .ok []) (fun _ => .ok ()) (fun _ => .ok ()) [Platform.linux64]
        LockMode.auto
      = (.error "no dependencies specified in manifest",
         [.createStagingDir, .parseChannels]) :=
  empty_specs_early_error wParse "conda-lock.yml" true (fun _ => wRecords)
    (fun _ => .ok []) (fun _ => .ok ()) (fun _ => .ok ()) [Platform.linux64]
    LockMode.auto [] rfl

/-- Witness for C5: the reuse case at a concrete valid lockfile under
Locked mode returns the loaded records with the reuse flag set. -/
theorem lock_mode_decision_witness :
    wRecords = (fun _ : List Platform => wRecords) (augmentWithNoarch [Platform.linux64])
      ∧ true = true :=
  ((lock_mode_decision wParse [wSpecA] "conda-lock.yml" (fun _ => wRecords)
      (fun _ => .ok []) (fun _ => .ok ()) (fun _ => .ok ()) [Platform.linux64]
      rfl).2.2.2.1 .locked (by decide) rfl).2.1 wRecords true (by rfl)

/-- C6 (cache validation): with a digest, the cached file is reused iff it
exists and its recomputed SHA-256 equals the record's digest; on mismatch
the cached file is deleted and the package is downloaded as a fresh fetch;
without a digest the cache is left alone, never reused, and the download
always runs; and in general the download runs exactly when the cache was
not reused. -/
theorem cache_validation (hash : List Nat → Nat) :
    (∀ (cached : Option (List Nat)) (digest : Nat),
        (verifyCachedPackage hash cached (some digest)).1 = true ↔
        ∃ bytes, cached = some bytes ∧ hash bytes = digest) ∧
    (∀ (bytes : List Nat) (digest : Nat), hash bytes ≠ digest →
        verifyCachedPackage hash (some bytes) (some digest) = (false, none) ∧
        (stagePackageDecision hash (some bytes) (some digest)).1 = true) ∧
    (∀ cached : Option (List Nat),
        verifyCachedPackage hash cached none = (false, cached) ∧
        (stagePackageDecision hash cached none).1 = true) ∧
    (∀ (cached : Option (List Nat)) (expected : Option Nat),
        (stagePackageDecision hash cached expected).1
          = !(verifyCachedPackage hash cached expected).1) := by
  refine ⟨?_, ?_, ?_, ?_⟩
  · intro cached digest
    cases cached with
    | none => simp [verifyCachedPackage]
    | some bytes =>
      by_cases hd : hash bytes = digest
      · simp [verifyCachedPackage, hd]
      · simp [verifyCachedPackage, hd]
  · intro bytes digest hne
    constructor
    · simp [verifyCachedPackage, hne]
    · simp [stagePackageDecision, verifyCachedPackage, hne]
  · intro cached
    exact ⟨rfl, rfl⟩
  · intro cached expected
    rfl

/-- Witness for C6: a concrete digest mismatch deletes and refetches. -/
theorem cache_validation_witness :
    verifyCachedPackage (fun l => l.sum) (some [1]) (some 5) = (false, none) ∧
    (stagePackageDecision (fun l => l.sum) (some [1]) (some 5)).1 = true :=
  (cache_validation (fun l => l.sum)).2.1 [1] 5 (by decide)

lemma collectFeatured_error_iff : ∀ (entries : List FeaturedPackageConfigEntry)
    (available seen : List String),
    (∃ e, collectFeatured available seen entries = .error e) ↔
    ∃ entry ∈ entries, packageNameFromStr entry.name = none ∨
      ∃ pn, packageNameFromStr entry.name = some pn ∧ pn ∉ available := by
  intro entries
  induction entries with
  | nil =>
    intro available seen
    simp [collectFeatured]
  | cons entry rest ih =>
    intro available seen
    cases hp : packageNameFromStr entry.name with
    | none =>
      simp only [collectFeatured, hp]
      constructor
      · intro _
        exact ⟨entry, List.mem_cons_self _ _, Or.inl hp⟩
      · intro _
        exact ⟨_, rfl⟩
    | some pn =>
      simp only [collectFeatured, hp]
      by_cases hav : pn ∈ available
      · rw [if_pos hav]
        have hheadbad : ¬ (packageNameFromStr entry.name = none ∨
            ∃ pn', packageNameFromStr entry.name = some pn' ∧ pn' ∉ available) := by
          rintro (hno | ⟨pn', hpn', hnav⟩)
          · rw [hp] at hno; exact Option.noConfusion hno
          · rw [hp] at hpn'
            injection hpn' with he
            exact hnav (he ▸ hav)
        by_cases hseen : pn ∈ seen
        · rw [if_pos hseen]
          rw [ih available seen]
          constructor
          · rintro ⟨e', he', hbad⟩
            exact ⟨e', List.mem_cons_of_mem _ he', hbad⟩
          · rintro ⟨e', he', hbad⟩
            rcases List.mem_cons.1 he' with rfl | hmem
            · exact absurd hbad hheadbad
            · exact ⟨e', hmem, hbad⟩
        · rw [if_neg hseen]
          constructor
          · rintro ⟨e, he⟩
            have : ∃ e', collectFeatured available (seen ++ [pn]) rest
                = .error e' := by
              cases hrec : collectFeatured available (seen ++ [pn]) rest with
              | error e' => exact ⟨e', rfl⟩
              | ok names => rw [hrec] at he; exact Except.noConfusion he
            obtain ⟨e'', he''⟩ := (ih available (seen ++ [pn])).1 this
            exact ⟨e'', List.mem_cons_of_mem _ he''.1, he''.2⟩
          · rintro ⟨entry', hentry', hbad⟩
            rcases List.mem_cons.1 hentry' with rfl | hmem
            · exact absurd hbad hheadbad
            · obtain ⟨e, he⟩ := (ih available (seen ++ [pn])).2 ⟨entry', hmem, hbad⟩
              rw [he]
              exact ⟨e, rfl⟩
      · rw [if_neg hav]
        constructor
        · intro _
          exact ⟨entry, List.mem_cons_self _ _, Or.inr ⟨pn, hp, hav⟩⟩
        · intro _
          exact ⟨_, rfl⟩

lemma collectFeatured_ok_eq : ∀ (entries : List FeaturedPackageConfigEntry)
    (available seen : List String) (names : List String),
    collectFeatured available seen entries = .ok names →
    names = strDedupAux seen
      (entries.map (fun e => (packageNameFromStr e.name).getD "")) := by
  intro entries
  induction entries with
  | nil =>
    intro available seen names h
    simp only [collectFeatured] at h
    injection h with h'
    subst h'
    simp [strDedupAux]
  | cons entry rest ih =>
    intro available seen names h
    simp only [collectFeatured] at h
    cases hp : packageNameFromStr entry.name with
    | none => simp only [hp] at h; exact Except.noConfusion h
    | some pn =>
      simp only [hp] at h
      by_cases hav : pn ∈ available
      · rw [if_pos hav] at h
        simp only [List.map_cons, hp, Option.getD_some, strDedupAux]
        by_cases hseen : pn ∈ seen
        · rw [if_pos hseen] at h
          rw [if_pos hseen]
          exact ih available seen names h
        · rw [if_neg hseen] at h
          rw [if_neg hseen]
          cases hrec : collectFeatured available (seen ++ [pn]) rest with
          | error e => simp only [hrec] at h; exact Except.noConfusion h
          | ok ns =>
            simp only [hrec] at h
            injection h with h'
            subst h'
            rw [ih available (seen ++ [pn]) ns hrec]
      · rw [if_neg hav] at h
        exact Except.noConfusion h

lemma strDedupAux_nodup : ∀ (l seen : List String),
    (strDedupAux seen l).Nodup ∧ ∀ x ∈ strDedupAux seen l, x ∉ seen := by
  intro l
  induction l with
  | nil => intro seen; simp [strDedupAux]
  | cons s rest ih =>
    intro seen
    simp only [strDedupAux]
    by_cases hm : s ∈ seen
    · rw [if_pos hm]; exact ih seen
    · rw [if_neg hm]
      obtain ⟨ihnd, ihnotin⟩ := ih (seen ++ [s])
      refine ⟨List.nodup_cons.2 ⟨?_, ihnd⟩, ?_⟩
      · intro hk
        have := ihnotin s hk
        simp at this
      · intro x hx
        rcases List.mem_cons.1 hx with rfl | hx'
        · exact hm
        · intro hxs
          exact ihnotin x hx' (List.mem_append_left _ hxs)

lemma strDedupAux_mem : ∀ (l seen : List String) (x : String),
    x ∈ strDedupAux seen l ↔ (x ∈ l ∧ x ∉ seen) := by
  intro l
  induction l with
  | nil => intro seen x; simp [strDedupAux]
  | cons s rest ih =>
    intro seen x
    simp only [strDedupAux]
    by_cases hm : s ∈ seen
    · rw [if_pos hm, ih seen x]
      constructor
      · rintro ⟨hx, hxs⟩
        exact ⟨List.mem_cons_of_mem _ hx, hxs⟩
      · rintro ⟨hx, hxs⟩
        rcases List.mem_cons.1 hx with rfl | hx'
        · exact absurd hm hxs
        · exact ⟨hx', hxs⟩
    · rw [if_neg hm]
      constructor
      · intro hx
        rcases List.mem_cons.1 hx with rfl | hx'
        · exact ⟨List.mem_cons_self _ _, hm⟩
        · obtain ⟨h1, h2⟩ := (ih (seen ++ [s]) x).1 hx'
          refine ⟨List.mem_cons_of_mem _ h1, fun hxs => h2 (List.mem_append_left _ hxs)⟩
      · rintro ⟨hx, hxs⟩
        rcases List.mem_cons.1 hx with rfl | hx'
        · exact List.mem_cons_self _ _
        · by_cases hxe : x = s
          · subst hxe
            exact List.mem_cons_self _ _
          · refine List.mem_cons_of_mem _ ((ih (seen ++ [s]) x).2 ⟨hx', ?_⟩)
            intro hxin
            rcases List.mem_append.1 hxin with h1 | h1
            · exact hxs h1
            · exact hxe (List.mem_singleton.1 h1)

lemma strDedupAux_sublist : ∀ (l seen : List String),
    List.Sublist (strDedupAux seen l) l := by
  intro l
  induction l with
  | nil => intro seen; simp [strDedupAux]
  | cons s rest ih =>
    intro seen
    simp only [strDedupAux]
    by_cases hm : s ∈ seen
    · rw [if_pos hm]; exact (ih seen).cons s
    · rw [if_neg hm]; exact (ih (seen ++ [s])).cons₂ s

/-- C8 (amended): bundle metadata derivation fails if and only if some
configured featured package name fails to parse as a package name or does
not appear in the resolved record names, or — with all featured entries
valid — a configured post-install script cannot be read; on success the
emitted featured list is the entries' normalized names deduplicated in
first-seen order (each valid name once). -/
theorem bundle_metadata_derivation :
    (∀ (environmentName : String) (cfg : BundleMetadataConfig)
        (readFile : String → Option (List Nat)) (records : List RepoDataRecord),
      (∃ e, fromConfig environmentName (some cfg) readFile records = .error e) ↔
      ((∃ entry ∈ cfg.featuredPackages,
          packageNameFromStr entry.name = none ∨
          ∃ pn, packageNameFromStr entry.name = some pn ∧
            pn ∉ records.map RepoDataRecord.name) ∨
       ((¬ ∃ entry ∈ cfg.featuredPackages,
            packageNameFromStr entry.name = none ∨
            ∃ pn, packageNameFromStr entry.name = some pn ∧
              pn ∉ records.map RepoDataRecord.name) ∧
        ∃ p, cfg.postInstallScript = some p ∧ readFile p = none))) ∧
    (∀ (environmentName : String) (cfg : BundleMetadataConfig)
        (readFile : String → Option (List Nat)) (records : List RepoDataRecord)
        (prepared : PreparedBundleMetadata),
      fromConfig environmentName (some cfg) readFile records = .ok prepared →
      prepared.manifest.featuredPackages
        = strDedupAux [] (cfg.featuredPackages.map
            (fun e => (packageNameFromStr e.name).getD ""))) ∧
    (∀ l : List String, (strDedupAux [] l).Nodup) ∧
    (∀ (l : List String) (x : String), x ∈ strDedupAux [] l ↔ x ∈ l) ∧
    (∀ l : List String, List.Sublist (strDedupAux [] l) l) := by
  refine ⟨?_, ?_, ?_, ?_, ?_⟩
  · intro environmentName cfg readFile records
    simp only [fromConfig, Option.getD_some]
    cases hc : collectFeatured (records.map RepoDataRecord.name) []
        cfg.featuredPackages with
    | error e =>
      have hbad := (collectFeatured_error_iff cfg.featuredPackages
        (records.map RepoDataRecord.name) []).1 ⟨e, hc⟩
      constructor
      · intro _; exact Or.inl hbad
      · intro _; exact ⟨e, rfl⟩
    | ok featured =>
      have hnobad : ¬ ∃ entry ∈ cfg.featuredPackages,
          packageNameFromStr entry.name = none ∨
          ∃ pn, packageNameFromStr entry.name = some pn ∧
            pn ∉ records.map RepoDataRecord.name := by
        intro hbad
        obtain ⟨e, he⟩ := (collectFeatured_error_iff cfg.featuredPackages
          (records.map RepoDataRecord.name) []).2 hbad
        rw [he] at hc
        exact Except.noConfusion hc
      cases hpi : cfg.postInstallScript with
      | none =>
        simp only
        constructor
        · rintro ⟨e, he⟩
          exact Except.noConfusion he
        · rintro (hbad | ⟨-, p, hp, -⟩)
          · exact absurd hbad hnobad
          · exact Option.noConfusion hp
      | some scriptPath =>
        simp only
        cases hrf : readFile scriptPath with
        | none =>
          simp only
          constructor
          · intro _
            exact Or.inr ⟨hnobad, scriptPath, rfl, hrf⟩
          · intro _
            exact ⟨_, rfl⟩
        | some scriptBytes =>
          simp only
          constructor
          · rintro ⟨e, he⟩
            exact Except.noConfusion he
          · rintro (hbad | ⟨-, p, hp, hrf'⟩)
            · exact absurd hbad hnobad
            · injection hp with hp'
              subst hp'
              rw [hrf] at hrf'
              exact Option.noConfusion hrf'
  · intro environmentName cfg readFile records prepared h
    simp only [fromConfig, Option.getD_some] at h
    cases hc : collectFeatured (records.map RepoDataRecord.name) []
        cfg.featuredPackages with
    | error e => simp only [hc] at h; exact Except.noConfusion h
    | ok featured =>
      simp only [hc] at h
      have hfe := collectFeatured_ok_eq cfg.featuredPackages
        (records.map RepoDataRecord.name) [] featured hc
      cases hpi : cfg.postInstallScript with
      | none =>
        simp only [hpi] at h
        injection h with h'
        subst h'
        exact hfe
      | some scriptPath =>
        simp only [hpi] at h
        cases hrf : readFile scriptPath with
        | none => simp only [hrf] at h; exact Except.noConfusion h
        | some scriptBytes =>
          simp only [hrf] at h
          injection h with h'
          subst h'
          exact hfe
  · intro l
    exact (strDedupAux_nodup l []).1
  · intro l x
    rw [strDedupAux_mem]
    simp
  · intro l
    exact strDedupAux_sublist l []

/-- C8 counterexample: metadata derivation fails although no configured
featured package name fails to parse or is absent from the record set
(the featured list is empty) — the failure is the unreadable post-install
script, so "fails iff some featured name is invalid or missing" is false
as stated. -/
theorem bundle_metadata_derivation_not_featured_iff :
    fromConfig "app" (some c8BadConfig) (fun _ => none) []
      = .error "failed to read post-install script at missing.sh" ∧
    c8BadConfig.featuredPackages = [] :=
  ⟨rfl, rfl⟩

/-- Witness for C8's amended theorem at a concrete derivation. -/
theorem bundle_metadata_derivation_witness :
    ({ manifest :=
         { displayName := "app", description := none, releaseNotes := none,
           successMessage := none, featuredPackages := ["a"],
           postInstall := none },
       postInstall := none } : PreparedBundleMetadata).manifest.featuredPackages
      = strDedupAux [] (c8GoodConfig.featuredPackages.map
          (fun e => (packageNameFromStr e.name).getD "")) :=
  bundle_metadata_derivation.2.1 "app" c8GoodConfig (fun _ => none) [wRecA] _
    (by rfl)

lemma applyLinuxOverride_preserves (platform : Platform)
    (config : PlatformVirtualPackageConfig) (packages out : VirtualPackages)
    (h : applyLinuxOverride platform config packages = .ok out) :
    out.osx = packages.osx ∧ out.win = packages.win ∧
    out.libc = packages.libc ∧ out.cuda = packages.cuda := by
  simp only [applyLinuxOverride] at h
  cases hc : config.linux with
  | none =>
    simp only [hc] at h
    injection h with h'
    subst h'
    exact ⟨rfl, rfl, rfl, rfl⟩
  | some value =>
    simp only [hc] at h
    cases hp : parseVersion value "__linux" platform with
    | error e => simp only [hp] at h; exact Except.noConfusion h
    | ok version =>
      simp only [hp] at h
      injection h with h'
      subst h'
      exact ⟨rfl, rfl, rfl, rfl⟩

lemma applyOsxOverride_preserves (platform : Platform)
    (config : PlatformVirtualPackageConfig) (packages out : VirtualPackages)
    (h : applyOsxOverride platform config packages = .ok out) :
    out.linux = packages.linux ∧ out.win = packages.win ∧
    out.libc = packages.libc ∧ out.cuda = packages.cuda := by
  simp only [applyOsxOverride] at h
  cases hc : config.osx with
  | none =>
    simp only [hc] at h
    injection h with h'
    subst h'
    exact ⟨rfl, rfl, rfl, rfl⟩
  | some value =>
    simp only [hc] at h
    cases hp : parseVersion value "__osx" platform with
    | error e => simp only [hp] at h; exact Except.noConfusion h
    | ok version =>
      simp only [hp] at h
      injection h with h'
      subst h'
      exact ⟨rfl, rfl, rfl, rfl⟩

lemma applyWinOverride_preserves (platform : Platform)
    (config : PlatformVirtualPackageConfig) (packages out : VirtualPackages)
    (h : applyWinOverride platform config packages = .ok out) :
    out.linux = packages.linux ∧ out.osx = packages.osx ∧
    out.libc = packages.libc ∧ out.cuda = packages.cuda := by
  simp only [applyWinOverride] at h
  cases hc : config.win with
  | none =>
    simp only [hc] at h
    injection h with h'
    subst h'
    exact ⟨rfl, rfl, rfl, rfl⟩
  | some value =>
    simp only [hc] at h
    by_cases he : trimmedEmpty value = true
    · rw [if_pos he] at h
      injection h with h'
      subst h'
      exact ⟨rfl, rfl, rfl, rfl⟩
    · rw [if_neg he] at h
      cases hp : parseVersion value "__win" platform with
      | error e => simp only [hp] at h; exact Except.noConfusion h
      | ok version =>
        simp only [hp] at h
        injection h with h'
        subst h'
        exact ⟨rfl, rfl, rfl, rfl⟩

lemma applyLibcOverride_preserves (platform : Platform)
    (config : PlatformVirtualPackageConfig) (packages out : VirtualPackages)
    (h : applyLibcOverride platform config packages = .ok out) :
    out.linux = packages.linux ∧ out.osx = packages.osx ∧
    out.win = packages.win ∧ out.cuda = packages.cuda := by
  simp only [applyLibcOverride] at h
  cases hc : config.libc with
  | none =>
    simp only [hc] at h
    injection h with h'
    subst h'
    exact ⟨rfl, rfl, rfl, rfl⟩
  | some libc =>
    simp only [hc] at h
    cases hp : parseVersion libc.version "__glibc" platform with
    | error e => simp only [hp] at h; exact Except.noConfusion h
    | ok version =>
      simp only [hp] at h
      injection h with h'
      subst h'
      exact ⟨rfl, rfl, rfl, rfl⟩

lemma applyCudaOverride_preserves (platform : Platform)
    (config : PlatformVirtualPackageConfig) (packages out : VirtualPackages)
    (h : applyCudaOverride platform config packages = .ok out) :
    out.linux = packages.linux ∧ out.osx = packages.osx ∧
    out.win = packages.win ∧ out.libc = packages.libc := by
  simp only [applyCudaOverride] at h
  cases hc : config.cuda with
  | none =>
    simp only [hc] at h
    injection h with h'
    subst h'
    exact ⟨rfl, rfl, rfl, rfl⟩
  | some value =>
    simp only [hc] at h
    by_cases he : trimmedEmpty value = true
    · rw [if_pos he] at h
      injection h with h'
      subst h'
      exact ⟨rfl, rfl, rfl, rfl⟩
    · rw [if_neg he] at h
      cases hp : parseVersion value "__cuda" platform with
      | error e => simp only [hp] at h; exact Except.noConfusion h
      | ok version =>
        simp only [hp] at h
        injection h with h'
        subst h'
        exact ⟨rfl, rfl, rfl, rfl⟩

lemma applyOverrides_steps (platform : Platform) (packages : VirtualPackages)
    (config : PlatformVirtualPackageConfig) (out : VirtualPackages)
    (h : applyOverrides platform packages config = .ok out) :
    ∃ p1 p2 p3 p4, applyLinuxOverride platform config packages = .ok p1 ∧
      applyOsxOverride platform config p1 = .ok p2 ∧
      applyWinOverride platform config p2 = .ok p3 ∧
      applyLibcOverride platform config p3 = .ok p4 ∧
      applyCudaOverride platform config p4 = .ok out := by
  simp only [applyOverrides] at h
  cases h1 : applyLinuxOverride platform config packages with
  | error e => simp only [h1] at h; exact Except.noConfusion h
  | ok p1 =>
    simp only [h1] at h
    cases h2 : applyOsxOverride platform config p1 with
    | error e => simp only [h2] at h; exact Except.noConfusion h
    | ok p2 =>
      simp only [h2] at h
      cases h3 : applyWinOverride platform config p2 with
      | error e => simp only [h3] at h; exact Except.noConfusion h
      | ok p3 =>
        simp only [h3] at h
        cases h4 : applyLibcOverride platform config p3 with
        | error e => simp only [h4] at h; exact Except.noConfusion h
        | ok p4 =>
          simp only [h4] at h
          exact ⟨p1, p2, p3, p4, rfl, h2, h3, h4, h⟩

lemma applyLinuxOverride_none (platform : Platform)
    (config : PlatformVirtualPackageConfig) (packages : VirtualPackages)
    (h : config.linux = none) :
    applyLinuxOverride platform config packages = .ok packages := by
  simp [applyLinuxOverride, h]

lemma applyCudaOverride_none (platform : Platform)
    (config : PlatformVirtualPackageConfig) (packages : VirtualPackages)
    (h : config.cuda = none) :
    applyCudaOverride platform config packages = .ok packages := by
  simp [applyCudaOverride, h]

lemma applyLinuxOverride_set (platform : Platform)
    (config : PlatformVirtualPackageConfig) (packages : VirtualPackages)
    (v : String) (ver : List Nat)
    (hc : config.linux = some v) (hv : versionFromStr v = some ver) :
    applyLinuxOverride platform config packages
      = .ok { packages with linux := some ver } := by
  simp [applyLinuxOverride, hc, parseVersion, hv]

lemma applyLinuxOverride_bad (platform : Platform)
    (config : PlatformVirtualPackageConfig) (packages : VirtualPackages)
    (v : String) (hc : config.linux = some v) (hv : versionFromStr v = none) :
    ∃ e, applyLinuxOverride platform config packages = .error e := by
  refine ⟨"failed to parse virtual package __linux version " ++ q ++ v ++ q
    ++ " for platform " ++ platform.asStr, ?_⟩
  simp [applyLinuxOverride, hc, parseVersion, hv]

lemma applyOsxOverride_bad (platform : Platform)
    (config : PlatformVirtualPackageConfig) (packages : VirtualPackages)
    (v : String) (hc : config.osx = some v) (hv : versionFromStr v = none) :
    ∃ e, applyOsxOverride platform config packages = .error e := by
  refine ⟨"failed to parse virtual package __osx version " ++ q ++ v ++ q
    ++ " for platform " ++ platform.asStr, ?_⟩
  simp [applyOsxOverride, hc, parseVersion, hv]

lemma applyLibcOverride_bad (platform : Platform)
    (config : PlatformVirtualPackageConfig) (packages : VirtualPackages)
    (l : VirtualPackageLibcConfig) (hc : config.libc = some l)
    (hv : versionFromStr l.version = none) :
    ∃ e, applyLibcOverride platform config packages = .error e := by
  refine ⟨"failed to parse virtual package __glibc version " ++ q ++ l.version
    ++ q ++ " for platform " ++ platform.asStr, ?_⟩
  simp [applyLibcOverride, hc, parseVersion, hv]

lemma applyWinOverride_empty (platform : Platform)
    (config : PlatformVirtualPackageConfig) (packages : VirtualPackages)
    (v : String) (hc : config.win = some v) (he : trimmedEmpty v = true) :
    applyWinOverride platform config packages
      = .ok { packages with win := some none } := by
  simp only [applyWinOverride, hc]
  rw [if_pos he]

lemma applyCudaOverride_empty (platform : Platform)
    (config : PlatformVirtualPackageConfig) (packages : VirtualPackages)
    (v : String) (hc : config.cuda = some v) (he : trimmedEmpty v = true) :
    applyCudaOverride platform config packages
      = .ok { packages with cuda := none } := by
  simp only [applyCudaOverride, hc]
  rw [if_pos he]

/-- C9 (amended): override entries behave per key — an empty (whitespace)
`cuda` value removes the `__cuda` package; an empty `win` value keeps the
`__win` package but clears its version; empty (unparseable) `linux`,
`osx`, or `libc` values fail version parsing with an error instead of
clearing; non-empty parseable values replace the corresponding version;
absent keys leave the platform defaults, which for linux-64 without
overrides are `__unix`, `__linux 5.4`, `__glibc 2.17` and the archspec
package. -/
theorem virtual_package_overrides :
    (∀ (platform : Platform) (packages : VirtualPackages)
        (config : PlatformVirtualPackageConfig) (v : String)
        (out : VirtualPackages),
        config.cuda = some v → trimmedEmpty v = true →
        applyOverrides platform packages config = .ok out → out.cuda = none) ∧
    (∀ (platform : Platform) (packages : VirtualPackages)
        (config : PlatformVirtualPackageConfig) (v : String)
        (out : VirtualPackages),
        config.win = some v → trimmedEmpty v = true →
        applyOverrides platform packages config = .ok out →
        out.win = some none) ∧
    (∀ (platform : Platform) (packages : VirtualPackages)
        (config : PlatformVirtualPackageConfig) (v : String),
        config.linux = some v → versionFromStr v = none →
        ∃ e, applyOverrides platform packages config = .error e) ∧
    (∀ (platform : Platform) (packages : VirtualPackages)
        (config : PlatformVirtualPackageConfig) (v : String),
        config.osx = some v → versionFromStr v = none →
        ∃ e, applyOverrides platform packages config = .error e) ∧
    (∀ (platform : Platform) (packages : VirtualPackages)
        (config : PlatformVirtualPackageConfig) (l : VirtualPackageLibcConfig),
        config.libc = some l → versionFromStr l.version = none →
        ∃ e, applyOverrides platform packages config = .error e) ∧
    versionFromStr "" = none ∧
    (∀ (platform : Platform) (packages : VirtualPackages)
        (config : PlatformVirtualPackageConfig) (v : String) (ver : List Nat)
        (out : VirtualPackages),
        config.linux = some v → versionFromStr v = some ver →
        applyOverrides platform packages config = .ok out →
        out.linux = some ver) ∧
    (∀ (platform : Platform) (packages : VirtualPackages)
        (config : PlatformVirtualPackageConfig) (out : VirtualPackages),
        config.linux = none →
        applyOverrides platform packages config = .ok out →
        out.linux = packages.linux) ∧
    (∀ (platform : Platform) (packages : VirtualPackages)
        (config : PlatformVirtualPackageConfig) (out : VirtualPackages),
        config.cuda = none →
        applyOverrides platform packages config = .ok out →
        out.cuda = packages.cuda) ∧
    detectVirtualPackagesForPlatform .linux64 none
      = .ok [("__unix", [0]), ("__linux", [5, 4]), ("__glibc", [2, 17]),
             ("__archspec", [1])] := by
  refine ⟨?_, ?_, ?_, ?_, ?_, rfl, ?_, ?_, ?_, rfl⟩
  · intro platform packages config v out hc he h
    obtain ⟨p1, p2, p3, p4, h1, h2, h3, h4, h5⟩ :=
      applyOverrides_steps platform packages config out h
    rw [applyCudaOverride_empty platform config p4 v hc he] at h5
    injection h5 with h5'
    rw [← h5']
  · intro platform packages config v out hc he h
    obtain ⟨p1, p2, p3, p4, h1, h2, h3, h4, h5⟩ :=
      applyOverrides_steps platform packages config out h
    rw [applyWinOverride_empty platform config p2 v hc he] at h3
    injection h3 with h3'
    have hwin4 := (applyLibcOverride_preserves platform config p3 p4 h4).2.2.1
    have hwinOut := (applyCudaOverride_preserves platform config p4 out h5).2.2.1
    rw [hwinOut, hwin4, ← h3']
  · intro platform packages config v hc hv
    obtain ⟨e, he⟩ := applyLinuxOverride_bad platform config packages v hc hv
    refine ⟨e, ?_⟩
    simp only [applyOverrides, he]
  · intro platform packages config v hc hv
    cases h1 : applyLinuxOverride platform config packages with
    | error e =>
      refine ⟨e, ?_⟩
      simp only [applyOverrides, h1]
    | ok p1 =>
      obtain ⟨e, he⟩ := applyOsxOverride_bad platform config p1 v hc hv
      refine ⟨e, ?_⟩
      simp only [applyOverrides, h1, he]
  · intro platform packages config l hc hv
    cases h1 : applyLinuxOverride platform config packages with
    | error e =>
      refine ⟨e, ?_⟩
      simp only [applyOverrides, h1]
    | ok p1 =>
      cases h2 : applyOsxOverride platform config p1 with
      | error e =>
        refine ⟨e, ?_⟩
        simp only [applyOverrides, h1, h2]
      | ok p2 =>
        cases h3 : applyWinOverride platform config p2 with
        | error e =>
          refine ⟨e, ?_⟩
          simp only [applyOverrides, h1, h2, h3]
        | ok p3 =>
          obtain ⟨e, he⟩ := applyLibcOverride_bad platform config p3 l hc hv
          refine ⟨e, ?_⟩
          simp only [applyOverrides, h1, h2, h3, he]
  · intro platform packages config v ver out hc hv h
    obtain ⟨p1, p2, p3, p4, h1, h2, h3, h4, h5⟩ :=
      applyOverrides_steps platform packages config out h
    rw [applyLinuxOverride_set platform config packages v ver hc hv] at h1
    injection h1 with h1'
    have e2 := (applyOsxOverride_preserves platform config p1 p2 h2).1
    have e3 := (applyWinOverride_preserves platform config p2 p3 h3).1
    have e4 := (applyLibcOverride_preserves platform config p3 p4 h4).1
    have e5 := (applyCudaOverride_preserves platform config p4 out h5).1
    rw [e5, e4, e3, e2, ← h1']
  · intro platform packages config out hc h
    obtain ⟨p1, p2, p3, p4, h1, h2, h3, h4, h5⟩ :=
      applyOverrides_steps platform packages config out h
    rw [applyLinuxOverride_none platform config packages hc] at h1
    injection h1 with h1'
    have e2 := (applyOsxOverride_preserves platform config p1 p2 h2).1
    have e3 := (applyWinOverride_preserves platform config p2 p3 h3).1
    have e4 := (applyLibcOverride_preserves platform config p3 p4 h4).1
    have e5 := (applyCudaOverride_preserves platform config p4 out h5).1
    rw [e5, e4, e3, e2, ← h1']
  · intro platform packages config out hc h
    obtain ⟨p1, p2, p3, p4, h1, h2, h3, h4, h5⟩ :=
      applyOverrides_steps platform packages config out h
    rw [applyCudaOverride_none platform config p4 hc] at h5
    injection h5 with h5'
    have e1 := (applyLinuxOverride_preserves platform config packages p1 h1).2.2.2
    have e2 := (applyOsxOverride_preserves platform config p1 p2 h2).2.2.2
    have e3 := (applyWinOverride_preserves platform config p2 p3 h3).2.2.2
    have e4 := (applyLibcOverride_preserves platform config p3 p4 h4).2.2.2
    rw [← h5', e4, e3, e2, e1]

/-- C9 counterexample: an empty-string linux override on linux-64 does not
clear `__linux` — detection fails with a version-parse error; and an
empty-string win override on win-64 does not clear `__win` — the package
is still present in the detected set (with version 0). -/
theorem virtual_package_empty_override_counterexample :
    detectVirtualPackagesForPlatform .linux64 (some c9LinuxEmpty)
      = .error ("failed to parse virtual package __linux version " ++ q ++ q
          ++ " for platform linux-64") ∧
    detectVirtualPackagesForPlatform .win64 (some c9WinEmpty)
      = .ok [("__win", [0]), ("__archspec", [1])] :=
  ⟨rfl, rfl⟩

/-- Witness for C9's amended theorem: the empty cuda override removes the
cuda package at a concrete input. -/
theorem virtual_package_overrides_witness :
    ({ c9Packages with cuda := none } : VirtualPackages).cuda = none :=
  virtual_package_overrides.1 .linux64 c9Packages c9CudaEmpty ""
    { c9Packages with cuda := none } rfl rfl (by rfl)

end CondaDist
